import Mathlib

/-!
Verification development for the InteractiveHtmlBom-w-altium upload pipeline.

Shallow embedding of:
  * web/web_server.py : parse_multipart_form_data (manual, non-cgi branch),
    serve_generated_file, handle_cleanup, and the response-status logic of
    handle_upload / process_file;
  * InteractiveHtmlBom/ecad/__init__.py : get_parser_by_extension;
  * InteractiveHtmlBom/ecad/altium.py : _check_perl, _find_altium2kicad,
    _convert_to_kicad.

Conventions: Python str values are List Char, bytes values are List Nat.
Filesystem and subprocess interaction is modelled by explicit environment
records whose fields give the outcome of each external call, and by a trace
of effect steps recording which external operations were invoked (logging
calls are not traced).  os.path.abspath is modelled as the identity: the
paths fed to the embedded functions are taken to be absolute already.
-/

def cs (s : String) : List Char := s.toList

/-- Association-list lookup, modelling Python dict.get on string keys. -/
def lookupA {β : Type} (l : List (List Char × β)) (k : List Char) : Option β :=
  match l with
  | [] => none
  | (k1, v) :: t => if k1 = k then some v else lookupA t k

/-- Association-list update, modelling Python dict assignment (last write wins). -/
def upsertA {β : Type} (k : List Char) (v : β) (l : List (List Char × β)) :
    List (List Char × β) :=
  match l with
  | [] => [(k, v)]
  | (k1, v1) :: t => if k1 = k then (k, v) :: t else (k1, v1) :: upsertA k v t

/-- ASCII whitespace bytes stripped by Python bytes.strip(). -/
def wsB (b : Nat) : Bool :=
  b = 32 || b = 9 || b = 10 || b = 13 || b = 11 || b = 12

/-- ASCII whitespace characters stripped by Python str.strip() (the inputs the
embedding meets are ASCII, so the ASCII whitespace set suffices). -/
def wsC (c : Char) : Bool :=
  c = ' ' || c = '\t' || c = '\n' || c = '\r' || c = Char.ofNat 11 || c = Char.ofNat 12

/-- Python bytes.strip(). -/
def pyStripBytes (l : List Nat) : List Nat :=
  (((l.dropWhile wsB).reverse.dropWhile wsB).reverse)

/-- Python str.strip(). -/
def pyStripChars (l : List Char) : List Char :=
  (((l.dropWhile wsC).reverse.dropWhile wsC).reverse)

/-- Python bytes.rstrip(b"\r\n"). -/
def rstripCRLF (l : List Nat) : List Nat :=
  (l.reverse.dropWhile (fun b => b = 13 || b = 10)).reverse

/-- Python str.strip(chr(34)), i.e. strip surrounding double quotes. -/
def stripQuotes (l : List Char) : List Char :=
  ((l.dropWhile (fun c => c = '"')).reverse.dropWhile (fun c => c = '"')).reverse

/-- ASCII lowercasing of one character; agrees with Python str.lower() on the
ASCII range (the only range exercised here). -/
def lowerAscii (c : Char) : Char :=
  if 'A' ≤ c ∧ c ≤ 'Z' then Char.ofNat (c.toNat + 32) else c

/-- Python str.lower() (ASCII fragment). -/
def toLowerL (l : List Char) : List Char := l.map lowerAscii

/-- Python str.encode() for the ASCII strings handled here. -/
def encodeAscii (l : List Char) : List Nat := l.map Char.toNat

/-- posixpath.basename: everything after the last slash. -/
def basename (p : List Char) : List Char :=
  (p.reverse.takeWhile (fun c => c ≠ '/')).reverse

/-- posixpath.dirname: everything up to the last slash, with trailing slashes
stripped from the head unless the head is all slashes. -/
def dirname (p : List Char) : List Char :=
  let b := p.reverse.takeWhile (fun c => c ≠ '/')
  let head := p.take (p.length - b.length)
  if head.all (fun c => c = '/') then head
  else (head.reverse.dropWhile (fun c => c = '/')).reverse

/-- os.path.join for a directory and a relative component, the only shape the
source uses. -/
def pjoin (a b : List Char) : List Char := a ++ '/' :: b

/-- posixpath.splitext: splits at the last dot of the final component, except
when that component consists only of leading dots up to it. -/
def splitext (p : List Char) : List Char × List Char :=
  let b := (p.reverse.takeWhile (fun c => c ≠ '/')).reverse
  let extRev := b.reverse.takeWhile (fun c => c ≠ '.')
  if extRev.length = b.length then (p, [])
  else
    let d := b.length - extRev.length - 1
    if (b.take d).any (fun c => c ≠ '.') then
      (p.take (p.length - (b.length - d)), b.drop d)
    else (p, [])

/-! ## InteractiveHtmlBom/ecad/__init__.py -/

/-- Abstract tag for the parser object returned by get_kicad_parser /
get_altium_parser (their construction takes no decisions relevant here). -/
inductive ParserKind where
  | kicad
  | altium
deriving DecidableEq

/-- Embedding of get_parser_by_extension: exact-case match for .kicad_pcb,
case-insensitive match for .pcbdoc, otherwise no parser. -/
def get_parser_by_extension (file_name : List Char) : Option ParserKind :=
  let ext := (splitext file_name).2
  if ext = cs ".kicad_pcb" then some ParserKind.kicad
  else if toLowerL ext ∈ [cs ".pcbdoc"] then some ParserKind.altium
  else none

/-! ## web_server.py: process_file dispatch and upload response status -/

/-- JSON result dict of BOMHandler.process_file, restricted to the fields the
claims mention. -/
structure JsonBody where
  success : Bool
  error : Option (List Char)
deriving DecidableEq

/-- Error message built by process_file for an unrecognized extension. -/
def unsupportedErrorMsg (extLower : List Char) : List Char :=
  cs "Unsupported file format: " ++ (if extLower.isEmpty then cs "unknown" else extLower)
    ++ cs "\n\nPlease upload one of the following:\n• .PcbDoc (Altium Designer)\n• .kicad_pcb (KiCad)"

/-- Outcome of process_file together with whether parser.parse() was reached. -/
structure ProcOut where
  body : JsonBody
  parseAttempted : Bool
deriving DecidableEq

/-- Embedding of the dispatch part of BOMHandler.process_file: when no parser
matches the extension, a success:false JSON body is built and parsing is never
attempted; otherwise the (external) parse/generate collaborator produces the
body. -/
def process_file_model (file_path : List Char) (collab : ParserKind → JsonBody) : ProcOut :=
  match get_parser_by_extension file_path with
  | none =>
      ⟨⟨false, some (unsupportedErrorMsg (toLowerL (splitext file_path).2))⟩, false⟩
  | some k => ⟨collab k, true⟩

/-- Embedding of the response-status choice in BOMHandler.handle_upload:
send_response(200) on success, send_response(500) otherwise, the JSON body
being written in both cases. -/
def upload_http_status (b : JsonBody) : Nat := if b.success then 200 else 500

/-! ## web_server.py: the manual multipart parser (non-cgi branch) -/

/-- Index of the first occurrence of the byte sequence sep in l, as used by
Python bytes.find / the scanning inside bytes.split. -/
def findFirstIdx (sep : List Nat) (l : List Nat) : Option Nat :=
  if sep.isPrefixOf l then some 0
  else
    match l with
    | [] => none
    | _ :: t => (findFirstIdx sep t).map (· + 1)

/-- Fuel-indexed worker for bytes.split(sep): repeatedly cut at the first
occurrence of sep.  Fuel larger than the list length is always sufficient. -/
def splitOnSeqF : Nat → List Nat → List Nat → List (List Nat)
  | 0, _, l => [l]
  | fuel + 1, sep, l =>
    match findFirstIdx sep l with
    | none => [l]
    | some i => l.take i :: splitOnSeqF fuel sep (l.drop (i + sep.length))

/-- Python bytes.split(sep) for a non-empty separator. -/
def splitOnSeq (sep l : List Nat) : List (List Nat) := splitOnSeqF (l.length + 1) sep l

/-- UTF-8 continuation byte test. -/
def contB (c : Nat) : Bool := 128 ≤ c && c ≤ 191

/-- Admissible first continuation byte after the lead byte b (RFC 3629 table,
ruling out overlong encodings, surrogates and values above U+10FFFF). -/
def cont1ok (b c : Nat) : Bool :=
  if b = 224 then 160 ≤ c && c ≤ 191
  else if b = 237 then 128 ≤ c && c ≤ 159
  else if b = 240 then 144 ≤ c && c ≤ 191
  else if b = 244 then 128 ≤ c && c ≤ 143
  else contB c

/-- Fuel-indexed worker modelling bytes.decode(utf-8, errors=ignore): a
malformed byte, or the maximal subpart of a malformed sequence, is skipped
without producing any output character. -/
def u8F : Nat → List Nat → List Char
  | 0, _ => []
  | fuel + 1, l =>
    match l with
    | [] => []
    | b :: rest =>
      if b ≤ 127 then Char.ofNat b :: u8F fuel rest
      else if b ≤ 193 then u8F fuel rest
      else if b ≤ 223 then
        match rest with
        | [] => []
        | c :: rest2 =>
          if contB c then Char.ofNat ((b - 192) * 64 + (c - 128)) :: u8F fuel rest2
          else u8F fuel rest
      else if b ≤ 239 then
        match rest with
        | [] => []
        | c :: rest2 =>
          if cont1ok b c then
            match rest2 with
            | [] => []
            | d :: rest3 =>
              if contB d then
                Char.ofNat ((b - 224) * 4096 + (c - 128) * 64 + (d - 128)) :: u8F fuel rest3
              else u8F fuel rest2
          else u8F fuel rest
      else if b ≤ 244 then
        match rest with
        | [] => []
        | c :: rest2 =>
          if cont1ok b c then
            match rest2 with
            | [] => []
            | d :: rest3 =>
              if contB d then
                match rest3 with
                | [] => []
                | e :: rest4 =>
                  if contB e then
                    Char.ofNat ((b - 240) * 262144 + (c - 128) * 4096 + (d - 128) * 64
                      + (e - 128)) :: u8F fuel rest4
                  else u8F fuel rest3
              else u8F fuel rest2
          else u8F fuel rest
      else u8F fuel rest

/-- Python bytes.decode(utf-8, errors=ignore). -/
def utf8DecodeIgnore (l : List Nat) : List Char := u8F l.length l

/-- Python str.split(c) on a single separator character. -/
def splitLines (c : Char) : List Char → List (List Char)
  | [] => [[]]
  | x :: t =>
    if x = c then [] :: splitLines c t
    else
      match splitLines c t with
      | h :: r => (x :: h) :: r
      | [] => [[x]]

/-- Header-block parsing loop of parse_multipart_form_data: split the decoded
header text on newlines, and for every line containing a colon record
key.strip().lower() mapped to value.strip(). -/
def parseHeaders (s : List Char) : List (List Char × List Char) :=
  (splitLines '\n' s).foldl
    (fun hs line =>
      if line.contains ':' then
        let k := line.takeWhile (fun c => c ≠ ':')
        let v := (line.dropWhile (fun c => c ≠ ':')).tail
        upsertA (toLowerL (pyStripChars k)) (pyStripChars v) hs
      else hs) []

/-- Attempted match of the regex pat([^stop]+)stop? at the head of s: the
literal pat, then a non-empty capture of characters different from stop,
then, when needClose is set, the stop character itself. -/
def matchCapAt (pat : List Char) (stop : Char) (needClose : Bool) (s : List Char) :
    Option (List Char) :=
  if pat.isPrefixOf s then
    let rest := s.drop pat.length
    let cap := rest.takeWhile (fun c => c ≠ stop)
    if cap.isEmpty then none
    else if needClose then
      match rest.drop cap.length with
      | c2 :: _ => if c2 = stop then some cap else none
      | [] => none
    else some cap
  else none

/-- re.search for the specific capture patterns of the parser: try a match at
every start position from left to right. -/
def searchCapture (pat : List Char) (stop : Char) (needClose : Bool) :
    List Char → Option (List Char)
  | [] => none
  | c :: t =>
    match matchCapAt pat stop needClose (c :: t) with
    | some cap => some cap
    | none => searchCapture pat stop needClose t

/-- re.search(r"boundary=([^;]+)", content_type). -/
def boundarySearch (ct : List Char) : Option (List Char) :=
  searchCapture (cs "boundary=") ';' false ct

/-- Split of one multipart segment into header block and body at the first
blank line, preferring CRLF-CRLF and falling back to LF-LF, as in the source;
none models the continue branch. -/
def splitHeaderBody (part : List Nat) : Option (List Nat × List Nat) :=
  match findFirstIdx [13, 10, 13, 10] part with
  | some i => some (part.take i, part.drop (i + 4))
  | none =>
    match findFirstIdx [10, 10] part with
    | some i => some (part.take i, part.drop (i + 2))
    | none => none

/-- FieldItem of the manual parser: a file field keeps its raw bytes (exposed
through an io.BytesIO handle in the source), a scalar field keeps the decoded
text. -/
structure FieldItem where
  filename : Option (List Char)
  value : Option (List Char)
  file_data : Option (List Nat)
deriving DecidableEq

/-- FieldStorage of the manual parser: the dict of parsed fields. -/
structure FieldStorage where
  fields : List (List Char × FieldItem)
deriving DecidableEq

/-- Per-segment processing loop body of parse_multipart_form_data. -/
def processPart (fields : List (List Char × FieldItem)) (part : List Nat) :
    List (List Char × FieldItem) :=
  let stripped := pyStripBytes part
  if stripped.isEmpty || stripped = [45, 45] then fields
  else
    match splitHeaderBody part with
    | none => fields
    | some (headerPart, body0) =>
      let headers := parseHeaders (utf8DecodeIgnore headerPart)
      let content_disp := (lookupA headers (cs "content-disposition")).getD []
      match searchCapture (cs "name=\"") '"' true content_disp with
      | none => fields
      | some field_name =>
        let body1 :=
          if List.isSuffixOf [45, 45, 13, 10] body0 then body0.take (body0.length - 4)
          else if List.isSuffixOf [45, 45] body0 then body0.take (body0.length - 2)
          else body0
        let body := rstripCRLF body1
        match searchCapture (cs "filename=\"") '"' true content_disp with
        | some fname => upsertA field_name ⟨some fname, none, some body⟩ fields
        | none => upsertA field_name ⟨none, some (utf8DecodeIgnore body), none⟩ fields

/-- Embedding of parse_multipart_form_data (manual branch, HAS_CGI false):
extract the boundary from the content type or raise ValueError, split the body
on the boundary delimiter and process each segment in order. -/
def parse_multipart_form_data (post_data : List Nat) (content_type : List Char) :
    Except (List Char) FieldStorage :=
  match boundarySearch content_type with
  | none => Except.error (cs "No boundary found in Content-Type")
  | some captured =>
    let boundary := stripQuotes captured
    let parts := splitOnSeq (45 :: 45 :: encodeAscii boundary) post_data
    Except.ok ⟨parts.foldl processPart []⟩

/-- Existence of a character clash between pat and s within their common
length: when this holds, pat cannot be a prefix of s ++ anything. -/
def mismatchWithin : List Char → List Char → Bool
  | p :: pt, c :: ct => (p != c) || mismatchWithin pt ct
  | _, _ => false

/-- Every suffix of xs clashes with pat within xs itself, so a scan for pat
can skip past all of xs whatever follows it. -/
def scanFailAll (pat : List Char) : List Char → Bool
  | [] => true
  | c :: t => mismatchWithin pat (c :: t) && scanFailAll pat t

/-- Header block of the canonical single-file-field part as a browser sends
it, for a given filename (as bytes). -/
def hdrBytesFile (fnB : List Nat) : List Nat :=
  encodeAscii (cs "Content-Disposition: form-data; name=\"file\"; filename=\"")
    ++ (fnB ++ [34])

/-- Header block of a canonical scalar (non-file) part for a given field
name. -/
def hdrBytesScalar (nameB : List Nat) : List Nat :=
  encodeAscii (cs "Content-Disposition: form-data; name=\"") ++ (nameB ++ [34])

/-- Wire segment between two boundary delimiters for the file part: leading
CRLF, header block, blank line, payload, trailing CRLF. -/
def midFile (fnB P : List Nat) : List Nat :=
  13 :: 10 :: (hdrBytesFile fnB ++ (13 :: 10 :: 13 :: 10 :: (P ++ [13, 10])))

/-- Wire segment between two boundary delimiters for a scalar part. -/
def midScalar (nameB P : List Nat) : List Nat :=
  13 :: 10 :: (hdrBytesScalar nameB ++ (13 :: 10 :: 13 :: 10 :: (P ++ [13, 10])))

/-- Canonical valid multipart body with exactly one file field named file:
dash-dash boundary, the part, dash-dash boundary, closing dash-dash CRLF. -/
def multipartFileBody (B fnB P : List Nat) : List Nat :=
  (45 :: 45 :: B) ++ (midFile fnB P ++ ((45 :: 45 :: B) ++ [45, 45, 13, 10]))

/-- Canonical valid multipart body with exactly one scalar field. -/
def multipartScalarBody (B nameB P : List Nat) : List Nat :=
  (45 :: 45 :: B) ++ (midScalar nameB P ++ ((45 :: 45 :: B) ++ [45, 45, 13, 10]))

/-- Content-Type header value declaring the boundary B. -/
def ctFor (B : List Nat) : List Char :=
  cs "multipart/form-data; boundary=" ++ B.map Char.ofNat

/-! ## InteractiveHtmlBom/ecad/altium.py -/

/-- Outcome of one bounded subprocess.run call: a timeout exception or a
completed run with a return code. -/
inductive SubprocOutcome where
  | timeout
  | ran (rc : Int)
deriving DecidableEq

/-- Externally observable steps performed by _find_altium2kicad and
_convert_to_kicad; logger calls are not traced. -/
inductive ConvStep where
  | probedPerl
  | ranWhich
  | madeTempDir (dir : List Char)
  | copiedIn
  | changedDirTemp
  | ranUnpack
  | ranConvert
  | listedDir
  | copiedOut (dst : List Char)
  | changedDirBack
  | removedTempDir (dir : List Char)
deriving DecidableEq

/-- Effects of a ConvStep on the filesystem (the chdir steps mutate process
state, not the filesystem; probes and the directory listing only read). -/
def isFsMutation : ConvStep → Bool
  | ConvStep.madeTempDir _ => true
  | ConvStep.copiedIn => true
  | ConvStep.ranUnpack => true
  | ConvStep.ranConvert => true
  | ConvStep.copiedOut _ => true
  | ConvStep.removedTempDir _ => true
  | _ => false

/-- Environment seen by the search phase of the converter: outcome of the perl
version probe, of the which lookup, the filesystem predicates, the pre-run
working directory and the name tempfile.mkdtemp would hand out. -/
structure AltiumEnv where
  perl_probe : Option Int
  which_probe : Option (Int × List Char)
  fsExists : List Char → Bool
  mtime : List Char → Int
  cwd0 : List Char
  temp_name : List Char

/-- Outcomes of the external calls made inside the conversion run, in program
order: the copy into the scratch directory, the chdir into it, the two script
runs, the existence of the conventionally named output, the scratch directory
listing, the copy back next to the source, and the restoring chdir. -/
structure RunEnv where
  copy_in_ok : Bool
  chdir_temp_ok : Bool
  unpack : SubprocOutcome
  convert : SubprocOutcome
  conv_temp_exists : Bool
  listing : List (List Char)
  copy_out_ok : Bool
  chdir_back_ok : Bool

/-- Embedding of AltiumParser._check_perl: subprocess.run(perl --version)
with a 5s timeout; any exception yields False, otherwise returncode == 0. -/
def check_perl (env : AltiumEnv) : Bool :=
  match env.perl_probe with
  | some rc => rc = 0
  | none => false

/-- Conventional installation locations checked by _find_altium2kicad. -/
def commonPaths (home : List Char) : List (List Char) :=
  [home ++ cs "/altium2kicad", home ++ cs "/github/altium2kicad",
   cs "/usr/local/share/altium2kicad", cs "/opt/altium2kicad"]

/-- Ancestor-directory loop of _find_altium2kicad (up to three levels): check
the parent itself, then its altium2kicad subdirectory, then recurse. -/
def findInParents (env : AltiumEnv) : Nat → List Char → Option (List Char)
  | 0, _ => none
  | n + 1, cur =>
    let parent := dirname cur
    if parent = cur then none
    else if env.fsExists (pjoin parent (cs "convertpcb.pl")) then some parent
    else
      let altium_dir := pjoin parent (cs "altium2kicad")
      if env.fsExists (pjoin altium_dir (cs "convertpcb.pl")) then some altium_dir
      else findInParents env n parent

/-- Embedding of AltiumParser._find_altium2kicad (location logic): perl probe
first, then the prioritized location search, each candidate accepted only if
it contains convertpcb.pl. -/
def find_loc (env : AltiumEnv) (module_dir home file_name : List Char) :
    Option (List Char) :=
  if check_perl env = false then none
  else
    let repo_root := dirname (dirname module_dir)
    let repo_altium_dir := pjoin repo_root (cs "altium2kicad")
    if env.fsExists (pjoin repo_altium_dir (cs "convertpcb.pl")) then some repo_altium_dir
    else
      let whichHit : Option (List Char) :=
        match env.which_probe with
        | none => none
        | some (rc, out) =>
          if rc = 0 then
            let converter_path := dirname (pyStripChars out)
            if env.fsExists (pjoin converter_path (cs "convertpcb.pl")) then
              some converter_path
            else none
          else none
      match whichHit with
      | some d => some d
      | none =>
        match (commonPaths home).find? (fun p => env.fsExists (pjoin p (cs "convertpcb.pl"))) with
        | some p => some p
        | none =>
          let pcb_dir := dirname file_name
          if env.fsExists (pjoin pcb_dir (cs "convertpcb.pl")) then some pcb_dir
          else
            let altium_dir := pjoin pcb_dir (cs "altium2kicad")
            if env.fsExists (pjoin altium_dir (cs "convertpcb.pl")) then some altium_dir
            else findInParents env 3 pcb_dir

/-- Trace of the external calls made by _find_altium2kicad: the perl probe is
always run; the which lookup is reached exactly when the probe succeeds and
the bundled toolchain directory check fails (every later candidate is tested
with pure filesystem reads only). -/
def find_trace (env : AltiumEnv) (module_dir : List Char) : List ConvStep :=
  if check_perl env = false then [ConvStep.probedPerl]
  else if env.fsExists (pjoin (pjoin (dirname (dirname module_dir)) (cs "altium2kicad"))
      (cs "convertpcb.pl")) then [ConvStep.probedPerl]
  else [ConvStep.probedPerl, ConvStep.ranWhich]

/-- Embedding of AltiumParser._find_altium2kicad: the located directory (or
none) together with the trace of external calls made. -/
def find_altium2kicad (env : AltiumEnv) (module_dir home file_name : List Char) :
    Option (List Char) × List ConvStep :=
  (find_loc env module_dir home file_name, find_trace env module_dir)

/-- Body of the conversion run of _convert_to_kicad, entered with the working
directory already changed to the scratch directory; returns the result of the
try block (none models both an error return and a raised exception, which the
enclosing handlers both turn into a None return) and the trace of steps. -/
def runMain (env : AltiumEnv) (renv : RunEnv) (converter_dir temp_dir pcb_basename
    converted_file : List Char) : Option (List Char) × List ConvStep :=
  if env.fsExists (pjoin converter_dir (cs "unpack.pl")) = false then (none, [])
  else
    match renv.unpack with
    | SubprocOutcome.timeout => (none, [ConvStep.ranUnpack])
    | SubprocOutcome.ran rc =>
      if rc ≠ 0 then (none, [ConvStep.ranUnpack])
      else
        if env.fsExists (pjoin converter_dir (cs "convertpcb.pl")) = false then
          (none, [ConvStep.ranUnpack])
        else
          match renv.convert with
          | SubprocOutcome.timeout => (none, [ConvStep.ranUnpack, ConvStep.ranConvert])
          | SubprocOutcome.ran rc2 =>
            if rc2 ≠ 0 then (none, [ConvStep.ranUnpack, ConvStep.ranConvert])
            else
              if renv.conv_temp_exists then
                if renv.copy_out_ok then
                  (some converted_file,
                   [ConvStep.ranUnpack, ConvStep.ranConvert, ConvStep.copiedOut converted_file])
                else
                  (none,
                   [ConvStep.ranUnpack, ConvStep.ranConvert, ConvStep.copiedOut converted_file])
              else
                match renv.listing.filter (fun f => List.isSuffixOf (cs ".kicad_pcb") f) with
                | [] => (none, [ConvStep.ranUnpack, ConvStep.ranConvert, ConvStep.listedDir])
                | _ :: _ =>
                  if renv.copy_out_ok then
                    (some converted_file,
                     [ConvStep.ranUnpack, ConvStep.ranConvert, ConvStep.listedDir,
                      ConvStep.copiedOut converted_file])
                  else
                    (none,
                     [ConvStep.ranUnpack, ConvStep.ranConvert, ConvStep.listedDir,
                      ConvStep.copiedOut converted_file])

/-- Result of _convert_to_kicad: the returned path (or None), the trace of
external steps, and the working directory when the call returns. -/
structure ConvOut where
  result : Option (List Char)
  effects : List ConvStep
  cwd : List Char
deriving DecidableEq

/-- Embedding of AltiumParser._convert_to_kicad.  The converter search runs
first; only then is the cached output next to the source consulted; only then
is the scratch directory created and the run performed.  The inner finally
always attempts to restore the working directory (a failure there supersedes
the return value and is caught by the outer except), and the outer finally
always attempts to remove the scratch directory. -/
def convert_to_kicad (env : AltiumEnv) (renv : RunEnv) (module_dir home file_name : List Char) :
    ConvOut :=
  let fd := find_altium2kicad env module_dir home file_name
  match fd.1 with
  | none => ⟨none, fd.2, env.cwd0⟩
  | some converter_dir =>
    let pcb_file := file_name
    let pcb_dir := dirname pcb_file
    let pcb_basename := (splitext (basename pcb_file)).1
    let converted_file := pjoin pcb_dir (pcb_basename ++ cs ".kicad_pcb")
    if env.fsExists converted_file && decide (env.mtime pcb_file ≤ env.mtime converted_file) then
      ⟨some converted_file, fd.2, env.cwd0⟩
    else
      let temp_dir := env.temp_name
      if renv.copy_in_ok = false then
        ⟨none, fd.2 ++ [ConvStep.madeTempDir temp_dir, ConvStep.copiedIn,
                        ConvStep.removedTempDir temp_dir], env.cwd0⟩
      else
        if renv.chdir_temp_ok = false then
          ⟨none, fd.2 ++ [ConvStep.madeTempDir temp_dir, ConvStep.copiedIn,
                          ConvStep.changedDirTemp, ConvStep.changedDirBack,
                          ConvStep.removedTempDir temp_dir], env.cwd0⟩
        else
          let body := runMain env renv converter_dir temp_dir pcb_basename converted_file
          let effs := fd.2 ++ [ConvStep.madeTempDir temp_dir, ConvStep.copiedIn,
                               ConvStep.changedDirTemp] ++ body.2 ++ [ConvStep.changedDirBack,
                               ConvStep.removedTempDir temp_dir]
          if renv.chdir_back_ok then ⟨body.1, effs, env.cwd0⟩
          else ⟨none, effs, temp_dir⟩

/-! ## web_server.py: serve_generated_file and handle_cleanup -/

/-- Filesystem view used by the serving endpoints: regular files with their
contents, existing directories, the platform temp root and its listing. -/
structure WebFS where
  files : List (List Char × List Nat)
  dirs : List (List Char)
  tempBase : List Char
  tempListing : List (List Char)

/-- Per-class handler state of BOMHandler: the active workspace, its output
directory and the artifact registry (all process-wide in the source). -/
structure SrvState where
  temp_dir : Option (List Char)
  output_dir : Option (List Char)
  registry : List (List Char × List Char)
deriving DecidableEq

/-- os.path.exists / os.path.isfile for the file paths probed while serving. -/
def fileExists (fs : WebFS) (p : List Char) : Bool := (lookupA fs.files p).isSome

/-- Python truthiness test on an optional string (None and the empty string
are falsy). -/
def pyFalsyS : Option (List Char) → Bool
  | none => true
  | some s => s.isEmpty

/-- HTTP response as far as the claims are concerned. -/
structure HttpOut where
  status : Nat
  body : Option (List Nat)
deriving DecidableEq

/-- Embedding of BOMHandler.serve_generated_file: resolve by the basename of
the request path through the registry, then the current output_dir, then a
scan of bom_-prefixed directories in the temp root (caching a hit back into
the registry), and serve the file or 404. -/
def serve_generated_file (fs : WebFS) (st : SrvState) (path : List Char) :
    HttpOut × SrvState :=
  let filename := basename path
  let od0 := lookupA st.registry filename
  let od1 := if pyFalsyS od0 then st.output_dir else od0
  let needScan :=
    match od1 with
    | none => true
    | some d => d.isEmpty || !(fileExists fs (pjoin d filename))
  let hit :=
    fs.tempListing.find? (fun item =>
      List.isPrefixOf (cs "bom_") item &&
        fileExists fs (pjoin (pjoin (pjoin fs.tempBase item) (cs "output")) filename))
  let step :=
    if needScan then
      match hit with
      | some item =>
        let d := pjoin (pjoin fs.tempBase item) (cs "output")
        (some d, upsertA filename d st.registry)
      | none => (od1, st.registry)
    else (od1, st.registry)
  let st1 : SrvState := ⟨st.temp_dir, st.output_dir, step.2⟩
  match step.1 with
  | none => (⟨404, none⟩, st1)
  | some d =>
    if d.isEmpty then (⟨404, none⟩, st1)
    else
      match lookupA fs.files (pjoin d filename) with
      | some content => (⟨200, some content⟩, st1)
      | none => (⟨404, none⟩, st1)

/-- shutil.rmtree on the filesystem view: removes the directory and everything
below it. -/
def rmtreeFS (fs : WebFS) (td : List Char) : WebFS :=
  ⟨fs.files.filter (fun kv => !(List.isPrefixOf (td ++ ['/']) kv.1)),
   fs.dirs.filter (fun d => !(d = td || List.isPrefixOf (td ++ ['/']) d)),
   fs.tempBase, fs.tempListing⟩

/-- Embedding of BOMHandler.handle_cleanup: when a truthy, existing workspace
is recorded, delete it and clear the workspace fields (the registry is not
cleared); respond 200 either way. -/
def handle_cleanup (fs : WebFS) (st : SrvState) : WebFS × SrvState × Nat :=
  match st.temp_dir with
  | some td =>
    if !td.isEmpty && decide (td ∈ fs.dirs) then
      (rmtreeFS fs td, ⟨none, none, st.registry⟩, 200)
    else (fs, st, 200)
  | none => (fs, st, 200)

/-- Environment for the C6 witness: probe succeeds, the bundled toolchain is
present, no cached counterpart exists, and the whole run succeeds. -/
def envC6 : AltiumEnv :=
  ⟨some 0, none,
   fun p => decide (p = cs "/repo/altium2kicad/convertpcb.pl"
     ∨ p = cs "/repo/altium2kicad/unpack.pl"),
   fun _ => 0, cs "/cwd", cs "/tmp/a2k"⟩

/-- Run outcomes for the C6 witness: every external call succeeds. -/
def renvC6 : RunEnv :=
  ⟨true, true, SubprocOutcome.ran 0, SubprocOutcome.ran 0, true, [], true, true⟩

/-- Filesystem for the C5 witness: one workspace bom_x under /tmp holding one
generated artifact. -/
def fsC5 : WebFS :=
  ⟨[(cs "/tmp/bom_x/output/b.html", [1, 2])], [cs "/tmp/bom_x"], cs "/tmp", [cs "bom_x"]⟩

/-- Server state for the C5 witness, as left behind by a successful upload. -/
def stC5 : SrvState :=
  ⟨some (cs "/tmp/bom_x"), some (cs "/tmp/bom_x/output"),
   [(cs "b.html", cs "/tmp/bom_x/output")]⟩

/-! ## Claim C9: extension dispatch case sensitivity -/

/-- C9: extension dispatch is asymmetric in case sensitivity: a .pcbdoc
extension is accepted in any letter case, while .kicad_pcb is matched only in
exact lowercase, so an uppercase or mixed-case .kicad_pcb variant yields no
parser. -/
theorem C9_extension_case_asymmetry (f : List Char) :
    (toLowerL (splitext f).2 = cs ".pcbdoc" →
      get_parser_by_extension f = some ParserKind.altium)
    ∧ ((splitext f).2 = cs ".kicad_pcb" →
      get_parser_by_extension f = some ParserKind.kicad)
    ∧ (toLowerL (splitext f).2 = cs ".kicad_pcb" → (splitext f).2 ≠ cs ".kicad_pcb" →
      get_parser_by_extension f = none) := by
  refine ⟨?_, ?_, ?_⟩
  · intro h
    by_cases hk : (splitext f).2 = cs ".kicad_pcb"
    · rw [hk] at h
      exact absurd h (by decide)
    · simp [get_parser_by_extension, hk, h]
  · intro h
    simp [get_parser_by_extension, h]
  · intro h hne
    simp [get_parser_by_extension, hne, h]
    decide

/-- Witness for C9 at the concrete inputs board.PCBDOC (accepted despite the
unusual case) and board.KICAD_PCB (rejected because the match is exact). -/
theorem C9_extension_case_asymmetry_witness :
    get_parser_by_extension (cs "board.PCBDOC") = some ParserKind.altium
    ∧ get_parser_by_extension (cs "board.KICAD_PCB") = none :=
  ⟨(C9_extension_case_asymmetry (cs "board.PCBDOC")).1 (by decide),
   (C9_extension_case_asymmetry (cs "board.KICAD_PCB")).2.2 (by decide) (by decide)⟩

/-! ## Claim C7: unsupported extensions -/

/-- C7 (amended): an upload whose extension matches no parser never reaches
parser.parse(), and the failure is reported inside the JSON body as
success:false with the unsupported-format error text; the HTTP status of that
response is 500, which is a transport-level error status. -/
theorem C7_unsupported_extension_amended (fp : List Char) (collab : ParserKind → JsonBody)
    (h : get_parser_by_extension fp = none) :
    (process_file_model fp collab).parseAttempted = false
    ∧ (process_file_model fp collab).body.success = false
    ∧ (process_file_model fp collab).body.error
        = some (unsupportedErrorMsg (toLowerL (splitext fp).2))
    ∧ upload_http_status (process_file_model fp collab).body = 500 := by
  simp [process_file_model, h, upload_http_status]

/-- Counterexample to C7 as stated: for the unsupported upload board.txt the
response status is 500, i.e. it IS a transport-level HTTP error status (the
claim asserts the report is not delivered as one). -/
theorem C7_counterexample_status_500 :
    upload_http_status
        (process_file_model (cs "board.txt") (fun _ => ⟨true, none⟩)).body = 500
    ∧ ¬ upload_http_status
        (process_file_model (cs "board.txt") (fun _ => ⟨true, none⟩)).body < 400 := by
  constructor
  · rfl
  · decide

/-- Witness for the amended C7 at the concrete input board.xyz. -/
theorem C7_unsupported_extension_amended_witness :
    get_parser_by_extension (cs "board.xyz") = none
    ∧ upload_http_status
        (process_file_model (cs "board.xyz") (fun _ => ⟨true, none⟩)).body = 500 :=
  ⟨by decide,
   (C7_unsupported_extension_amended (cs "board.xyz") (fun _ => ⟨true, none⟩)
      (by decide)).2.2.2⟩

/-! ## Claim C10: artifact resolution uses only the final path component -/

/-- C10: serve_generated_file takes the basename of the request path before
any lookup, so two request paths with equal basenames (for example paths that
differ only by directory components such as dot-dot segments) get identical
responses and identical state updates; moreover any 200 body is the content of
a file named by that basename inside some consulted output directory. -/
theorem C10_resolution_uses_basename_only (fs : WebFS) (st : SrvState) (p q : List Char)
    (h : basename p = basename q) :
    serve_generated_file fs st p = serve_generated_file fs st q
    ∧ ∀ content, (serve_generated_file fs st p).1.body = some content →
        ∃ d, lookupA fs.files (pjoin d (basename p)) = some content := by
  constructor
  · unfold serve_generated_file
    rw [h]
  · intro content hc
    simp only [serve_generated_file] at hc
    split at hc
    · simp at hc
    · split at hc
      · simp at hc
      · split at hc
        · rename_i content0 heq
          simp at hc
          exact ⟨_, hc ▸ heq⟩
        · simp at hc

/-- Witness for C10: a request path with dot-dot segments gets the same
response as the plain path with the same basename, on a concrete server
state. -/
theorem C10_resolution_uses_basename_only_witness :
    basename (cs "/generated/../../etc/x.html") = basename (cs "/generated/x.html")
    ∧ serve_generated_file ⟨[], [], cs "/tmp", []⟩ ⟨none, none, []⟩
        (cs "/generated/../../etc/x.html")
      = serve_generated_file ⟨[], [], cs "/tmp", []⟩ ⟨none, none, []⟩
        (cs "/generated/x.html") :=
  ⟨by decide,
   (C10_resolution_uses_basename_only ⟨[], [], cs "/tmp", []⟩ ⟨none, none, []⟩
      (cs "/generated/../../etc/x.html") (cs "/generated/x.html") (by decide)).1⟩

/-! ## Claims about _convert_to_kicad -/

/-- Whatever the environment, the search phase only ever probes perl and
possibly runs which: its trace is one of two fixed probe-only lists. -/
theorem find_altium2kicad_effects (env : AltiumEnv) (m home fn : List Char) :
    (find_altium2kicad env m home fn).2 = [ConvStep.probedPerl]
    ∨ (find_altium2kicad env m home fn).2 = [ConvStep.probedPerl, ConvStep.ranWhich] := by
  unfold find_altium2kicad find_trace
  repeat' split
  all_goals simp

/-- When no directory at all contains convertpcb.pl, the ancestor loop finds
nothing. -/
theorem findInParents_none (env : AltiumEnv)
    (hAll : ∀ d, env.fsExists (pjoin d (cs "convertpcb.pl")) = false) :
    ∀ n cur, findInParents env n cur = none := by
  intro n
  induction n with
  | zero => intro cur; rfl
  | succ k ih =>
    intro cur
    unfold findInParents
    simp [hAll, ih]

/-- The search fails when the perl probe fails or when no candidate directory
contains convertpcb.pl. -/
theorem find_altium2kicad_none (env : AltiumEnv) (m home fn : List Char)
    (h : check_perl env = false
      ∨ ∀ d, env.fsExists (pjoin d (cs "convertpcb.pl")) = false) :
    (find_altium2kicad env m home fn).1 = none := by
  show find_loc env m home fn = none
  unfold find_loc
  rcases h with h | h
  · simp [h]
  · by_cases hp : check_perl env = false
    · simp [hp]
    · rcases hw : env.which_probe with _ | ⟨rc, out⟩ <;>
        simp [hp, hw, h, commonPaths, List.find?, findInParents_none env h]

/-- C4: with no cached newer counterpart relevant (the cache is not even
reached), when the perl probe fails or no search location contains the
entry-point script, _convert_to_kicad returns None, performs no filesystem
mutation, and in particular never creates the scratch directory. -/
theorem C4_toolchain_unavailable_no_mutation (env : AltiumEnv) (renv : RunEnv)
    (m home fn : List Char)
    (h : check_perl env = false
      ∨ ∀ d, env.fsExists (pjoin d (cs "convertpcb.pl")) = false) :
    (convert_to_kicad env renv m home fn).result = none
    ∧ (∀ e ∈ (convert_to_kicad env renv m home fn).effects, isFsMutation e = false)
    ∧ ConvStep.madeTempDir env.temp_name ∉ (convert_to_kicad env renv m home fn).effects := by
  have hf := find_altium2kicad_none env m home fn h
  have he := find_altium2kicad_effects env m home fn
  simp only [convert_to_kicad]
  rw [hf]
  rcases he with he | he <;> rw [he] <;> refine ⟨rfl, ?_, by simp⟩ <;>
      intro e hm <;> simp at hm
  · subst hm; rfl
  · rcases hm with rfl | rfl <;> rfl

/-- Witness for C4: a concrete environment whose perl probe succeeds but where
no location holds convertpcb.pl. -/
theorem C4_toolchain_unavailable_no_mutation_witness :
    (convert_to_kicad
        ⟨some 0, none, fun _ => false, fun _ => 0, cs "/cwd", cs "/tmp/a2k"⟩
        ⟨true, true, SubprocOutcome.ran 0, SubprocOutcome.ran 0, true, [], true, true⟩
        (cs "/repo/InteractiveHtmlBom/ecad") (cs "/home/u") (cs "/work/b.PcbDoc")).result = none
    ∧ ConvStep.madeTempDir (cs "/tmp/a2k") ∉ (convert_to_kicad
        ⟨some 0, none, fun _ => false, fun _ => 0, cs "/cwd", cs "/tmp/a2k"⟩
        ⟨true, true, SubprocOutcome.ran 0, SubprocOutcome.ran 0, true, [], true, true⟩
        (cs "/repo/InteractiveHtmlBom/ecad") (cs "/home/u") (cs "/work/b.PcbDoc")).effects :=
  ⟨(C4_toolchain_unavailable_no_mutation _ _ _ _ _ (Or.inr fun _ => rfl)).1,
   (C4_toolchain_unavailable_no_mutation _ _ _ _ _ (Or.inr fun _ => rfl)).2.2⟩

/-- C2 (amended): the conversion cache is consulted only after the perl probe
and the converter search.  When the search succeeds and the converted
counterpart next to the source has an mtime at least the source mtime,
_convert_to_kicad returns that cached path, its only external effects are the
search probes, and neither conversion step runs nor is a scratch directory
created; when the search fails, None is returned even if such a cached
counterpart exists. -/
theorem C2_cache_consulted_after_search (env : AltiumEnv) (renv : RunEnv)
    (m home fn : List Char) :
    ((find_altium2kicad env m home fn).1 ≠ none →
      env.fsExists (pjoin (dirname fn) ((splitext (basename fn)).1 ++ cs ".kicad_pcb")) = true →
      env.mtime fn ≤ env.mtime (pjoin (dirname fn) ((splitext (basename fn)).1 ++ cs ".kicad_pcb")) →
      (convert_to_kicad env renv m home fn).result
          = some (pjoin (dirname fn) ((splitext (basename fn)).1 ++ cs ".kicad_pcb"))
        ∧ (convert_to_kicad env renv m home fn).effects = (find_altium2kicad env m home fn).2
        ∧ ConvStep.ranUnpack ∉ (convert_to_kicad env renv m home fn).effects
        ∧ ConvStep.ranConvert ∉ (convert_to_kicad env renv m home fn).effects
        ∧ ConvStep.madeTempDir env.temp_name ∉ (convert_to_kicad env renv m home fn).effects)
    ∧ ((find_altium2kicad env m home fn).1 = none →
      (convert_to_kicad env renv m home fn).result = none) := by
  have he := find_altium2kicad_effects env m home fn
  constructor
  · intro hne hex hmt
    rcases hl : (find_altium2kicad env m home fn).1 with _ | cdir
    · exact absurd hl hne
    · simp only [convert_to_kicad]
      rw [hl]
      simp only [hex, hmt, decide_eq_true_eq, if_true, Bool.true_and, Bool.and_true,
        Bool.and_self, decide_eq_true, if_pos]
      simp [hex, hmt]
      refine ⟨?_, ?_, ?_⟩ <;>
        rcases he with he | he <;> rw [he] <;> simp
  · intro hl
    simp only [convert_to_kicad]
    rw [hl]

/-- Counterexample to C2 as stated: a concrete environment whose perl probe
fails while a valid cached counterpart exists; the cache would be hit if it
were consulted before the probe, but the function returns None. -/
theorem C2_counterexample_probe_blocks_cache :
    (convert_to_kicad
        ⟨none, none, fun p => decide (p = cs "/work/board.kicad_pcb"), fun _ => 0,
          cs "/cwd", cs "/tmp/a2k"⟩
        ⟨true, true, SubprocOutcome.ran 0, SubprocOutcome.ran 0, true, [], true, true⟩
        (cs "/repo/InteractiveHtmlBom/ecad") (cs "/home/u") (cs "/work/board.PcbDoc")).result
      = none
    ∧ (pjoin (dirname (cs "/work/board.PcbDoc"))
        ((splitext (basename (cs "/work/board.PcbDoc"))).1 ++ cs ".kicad_pcb"))
      = cs "/work/board.kicad_pcb"
    ∧ (fun p => decide (p = cs "/work/board.kicad_pcb")) (cs "/work/board.kicad_pcb") = true := by
  refine ⟨rfl, by decide, by decide⟩

/-- Witness for the amended C2: a concrete environment where the search
succeeds (bundled toolchain present) and the cached counterpart is newer. -/
theorem C2_cache_consulted_after_search_witness :
    (convert_to_kicad
        ⟨some 0, none,
          fun p => decide (p = cs "/repo/altium2kicad/convertpcb.pl"
            ∨ p = cs "/work/board.kicad_pcb"),
          fun _ => 0, cs "/cwd", cs "/tmp/a2k"⟩
        ⟨true, true, SubprocOutcome.ran 0, SubprocOutcome.ran 0, true, [], true, true⟩
        (cs "/repo/InteractiveHtmlBom/ecad") (cs "/home/u") (cs "/work/board.PcbDoc")).result
      = some (pjoin (dirname (cs "/work/board.PcbDoc"))
          ((splitext (basename (cs "/work/board.PcbDoc"))).1 ++ cs ".kicad_pcb")) :=
  ((C2_cache_consulted_after_search _ _ _ _ _).1 (by decide) (by decide) (by decide)).1

/-- C6: on every exit path of a conversion run, removal of the scratch
directory is attempted, the working-directory restoration is attempted
whenever the working directory was changed, and whenever the restoring chdir
succeeds the working directory at return equals the pre-run one — including
the paths where the run itself failed or timed out, and independently of
whether the restoration succeeded (the removal conjunct has no hypothesis on
chdir_back_ok). -/
theorem C6_scratch_removed_cwd_restored (env : AltiumEnv) (renv : RunEnv)
    (m home fn : List Char) :
    (ConvStep.madeTempDir env.temp_name ∈ (convert_to_kicad env renv m home fn).effects →
      ConvStep.removedTempDir env.temp_name ∈ (convert_to_kicad env renv m home fn).effects)
    ∧ (ConvStep.changedDirTemp ∈ (convert_to_kicad env renv m home fn).effects →
      ConvStep.changedDirBack ∈ (convert_to_kicad env renv m home fn).effects)
    ∧ (renv.chdir_back_ok = true → (convert_to_kicad env renv m home fn).cwd = env.cwd0) := by
  have he := find_altium2kicad_effects env m home fn
  refine ⟨?_, ?_, ?_⟩ <;> simp only [convert_to_kicad] <;> repeat' split
  all_goals intro hm
  all_goals try rfl
  all_goals rcases he with he | he <;> rw [he] <;> try (rw [he] at hm; simp at hm)
  all_goals simp
  all_goals simp_all

/-- Witness for C6 on a concrete successful conversion run: the scratch
directory removal and the restoring chdir both appear in the trace and the
working directory ends up back at its pre-run value. -/
theorem C6_scratch_removed_cwd_restored_witness :
    ConvStep.removedTempDir (cs "/tmp/a2k")
        ∈ (convert_to_kicad envC6 renvC6 (cs "/repo/InteractiveHtmlBom/ecad") (cs "/home/u")
            (cs "/work/board.PcbDoc")).effects
    ∧ ConvStep.changedDirBack
        ∈ (convert_to_kicad envC6 renvC6 (cs "/repo/InteractiveHtmlBom/ecad") (cs "/home/u")
            (cs "/work/board.PcbDoc")).effects
    ∧ (convert_to_kicad envC6 renvC6 (cs "/repo/InteractiveHtmlBom/ecad") (cs "/home/u")
            (cs "/work/board.PcbDoc")).cwd = cs "/cwd" :=
  ⟨(C6_scratch_removed_cwd_restored envC6 renvC6 _ _ _).1 (by decide),
   (C6_scratch_removed_cwd_restored envC6 renvC6 _ _ _).2.1 (by decide),
   (C6_scratch_removed_cwd_restored envC6 renvC6 _ _ _).2.2 rfl⟩

/-! ## Claim C5: upload / serve / cleanup round trip -/

/-- takeWhile runs over a block of satisfying elements and stops at the first
failing one. -/
theorem takeWhile_append_stop {α : Type} (p : α → Bool) (xs : List α) (y : α) (ys : List α)
    (hxs : ∀ x ∈ xs, p x = true) (hy : p y = false) :
    (xs ++ y :: ys).takeWhile p = xs := by
  induction xs with
  | nil => simp [List.takeWhile, hy]
  | cons a t ih =>
    have ha : p a = true := hxs a (List.mem_cons_self _ _)
    simp [List.takeWhile, ha]
    exact ih fun x hx => hxs x (List.mem_cons_of_mem _ hx)

/-- basename of a directory prefix joined to a slash-free final component. -/
theorem basename_append_slash (l F : List Char) (hF : ∀ c ∈ F, c ≠ '/') :
    basename (l ++ '/' :: F) = F := by
  unfold basename
  rw [List.reverse_append, List.reverse_cons]
  rw [List.append_assoc, List.singleton_append]
  rw [takeWhile_append_stop _ _ '/' _ (fun x hx => by
        simpa using hF x (List.mem_reverse.mp hx)) (by simp)]
  exact List.reverse_reverse F

/-- a filtered association list no longer resolves any key the filter
removes. -/
theorem lookupA_filter_none {β : Type} (q : List Char → Bool) (k : List Char)
    (hk : q k = true) (l : List (List Char × β)) :
    lookupA (l.filter (fun kv => !(q kv.1))) k = none := by
  induction l with
  | nil => rfl
  | cons p t ih =>
    obtain ⟨k1, v1⟩ := p
    by_cases h1 : q k1 = true
    · simpa [List.filter, h1] using ih
    · have hne : ¬ k1 = k := fun he => h1 (he ▸ hk)
      simp only [List.filter]
      simp only [Bool.not_eq_true] at h1
      simp [h1, lookupA, hne, ih]

/-- filtering can only remove entries: an absent key stays absent. -/
theorem lookupA_filter_of_none {β : Type} (q : (List Char × β) → Bool) (k : List Char)
    (l : List (List Char × β)) (h : lookupA l k = none) :
    lookupA (l.filter q) k = none := by
  induction l with
  | nil => rfl
  | cons p t ih =>
    obtain ⟨k1, v1⟩ := p
    by_cases hne : k1 = k
    · simp [lookupA, hne] at h
    · simp only [lookupA, hne, if_neg hne] at h
      by_cases hq : q (k1, v1) = true <;> simp [List.filter, hq, lookupA, hne, ih h]

/-- a list is a prefix of itself followed by anything. -/
theorem isPrefixOf_append_self (a r : List Char) : List.isPrefixOf a (a ++ r) = true := by
  induction a with
  | nil => simp [List.isPrefixOf]
  | cons x t ih => simpa [List.isPrefixOf] using ih

/-- C5: in the state established by a successful upload of artifact F (the
registry maps F to the workspace output directory, the artifact bytes are on
disk there), GET /generated/F answers 200 with exactly the artifact bytes;
after handle_cleanup deletes the workspace root, the same GET answers 404
(the hypothesis hscan says the artifact name can only be found under this
workspace, i.e. any temp-scan hit lies below the deleted root). -/
theorem C5_serve_then_cleanup_404 (fs : WebFS) (st : SrvState) (tdname F : List Char)
    (content : List Nat)
    (hF : ∀ c ∈ F, c ≠ '/')
    (htd : st.temp_dir = some (pjoin fs.tempBase tdname))
    (hreg : lookupA st.registry F = some (pjoin (pjoin fs.tempBase tdname) (cs "output")))
    (hfile : lookupA fs.files (pjoin (pjoin (pjoin fs.tempBase tdname) (cs "output")) F)
      = some content)
    (hdirs : pjoin fs.tempBase tdname ∈ fs.dirs)
    (hscan : ∀ item ∈ fs.tempListing,
        List.isPrefixOf (pjoin fs.tempBase tdname ++ ['/'])
            (pjoin (pjoin (pjoin fs.tempBase item) (cs "output")) F) = true
        ∨ lookupA fs.files (pjoin (pjoin (pjoin fs.tempBase item) (cs "output")) F) = none) :
    (serve_generated_file fs st (cs "/generated/" ++ F)).1 = ⟨200, some content⟩
    ∧ (serve_generated_file (handle_cleanup fs st).1 (handle_cleanup fs st).2.1
        (cs "/generated/" ++ F)).1 = ⟨404, none⟩ := by
  have hbase : basename (cs "/generated/" ++ F) = F := by
    have h0 : cs "/generated/" ++ F = cs "/generated" ++ '/' :: F := rfl
    rw [h0, basename_append_slash _ _ hF]
  have hodne : (pjoin (pjoin fs.tempBase tdname) (cs "output")).isEmpty = false := by
    simp [pjoin]
  have htdne : (pjoin fs.tempBase tdname).isEmpty = false := by
    simp [pjoin]
  constructor
  · simp [serve_generated_file, hbase, hreg, pyFalsyS, hodne, fileExists, hfile]
  · have hclean : handle_cleanup fs st
        = (rmtreeFS fs (pjoin fs.tempBase tdname), ⟨none, none, st.registry⟩, 200) := by
      simp [handle_cleanup, htd, htdne, hdirs]
    rw [hclean]
    have hprefix1 : (fun x => (pjoin fs.tempBase tdname ++ ['/']).isPrefixOf x)
        (pjoin (pjoin (pjoin fs.tempBase tdname) (cs "output")) F) = true := by
      have hsplit : pjoin (pjoin (pjoin fs.tempBase tdname) (cs "output")) F
          = (pjoin fs.tempBase tdname ++ ['/']) ++ (cs "output" ++ '/' :: F) := by
        simp [pjoin]
      simp only [hsplit]
      exact isPrefixOf_append_self _ _
    have hgone : lookupA (List.filter
        (fun kv => !(pjoin fs.tempBase tdname ++ ['/']).isPrefixOf kv.1) fs.files)
        (pjoin (pjoin (pjoin fs.tempBase tdname) (cs "output")) F) = none :=
      lookupA_filter_none _ _ hprefix1 _
    have hnohit : List.find? (fun item => (cs "bom_").isPrefixOf item &&
        (lookupA (List.filter
          (fun kv => !(pjoin fs.tempBase tdname ++ ['/']).isPrefixOf kv.1) fs.files)
          (pjoin (pjoin (pjoin fs.tempBase item) (cs "output")) F)).isSome) fs.tempListing
        = none := by
      rw [List.find?_eq_none]
      intro item hmem
      have hitem := hscan item hmem
      have hlook : lookupA (List.filter
          (fun kv => !(pjoin fs.tempBase tdname ++ ['/']).isPrefixOf kv.1) fs.files)
          (pjoin (pjoin (pjoin fs.tempBase item) (cs "output")) F) = none := by
        rcases hitem with hpre | hnone
        · exact lookupA_filter_none _ _ hpre _
        · exact lookupA_filter_of_none _ _ _ hnone
      simp [hlook]
    simp [serve_generated_file, hbase, hreg, pyFalsyS, hodne, fileExists, rmtreeFS, hgone,
      hnohit]

/-- Witness for C5 at a concrete post-upload state. -/
theorem C5_serve_then_cleanup_404_witness :
    (serve_generated_file fsC5 stC5 (cs "/generated/" ++ cs "b.html")).1
      = ⟨200, some [1, 2]⟩
    ∧ (serve_generated_file (handle_cleanup fsC5 stC5).1 (handle_cleanup fsC5 stC5).2.1
        (cs "/generated/" ++ cs "b.html")).1 = ⟨404, none⟩ :=
  C5_serve_then_cleanup_404 fsC5 stC5 (cs "bom_x") (cs "b.html") [1, 2]
    (by decide) (by decide) (by decide) (by decide) (by decide) (by decide)

/-! ## Toolkit for the multipart parser claims -/

/-- a Boolean prefix is no longer than the list it prefixes. -/
theorem isPrefixOf_length_le {α : Type} [BEq α] (l1 : List α) :
    ∀ l2, List.isPrefixOf l1 l2 = true → l1.length ≤ l2.length := by
  induction l1 with
  | nil => intro l2 _; simp
  | cons a t ih =>
    intro l2 h
    cases l2 with
    | nil => simp [List.isPrefixOf] at h
    | cons b t2 =>
      simp only [List.isPrefixOf, Bool.and_eq_true] at h
      simpa using ih t2 h.2

/-- a list is a Boolean prefix of itself followed by anything (general BEq
version). -/
theorem isPrefixOf_append_self_beq {α : Type} [BEq α] [LawfulBEq α] (a r : List α) :
    List.isPrefixOf a (a ++ r) = true := by
  induction a with
  | nil => simp [List.isPrefixOf]
  | cons x t ih => simpa [List.isPrefixOf] using ih

/-- takeWhile keeps a block on which the predicate holds everywhere. -/
theorem takeWhile_all {α : Type} (p : α → Bool) (l : List α) (h : ∀ x ∈ l, p x = true) :
    l.takeWhile p = l := by
  induction l with
  | nil => rfl
  | cons a t ih =>
    have := h a (List.mem_cons_self _ _)
    simp [List.takeWhile, this, ih fun x hx => h x (List.mem_cons_of_mem _ hx)]

/-- dropWhile removes nothing when the predicate fails everywhere. -/
theorem dropWhile_all {α : Type} (p : α → Bool) (l : List α) (h : ∀ x ∈ l, p x = false) :
    l.dropWhile p = l := by
  cases l with
  | nil => rfl
  | cons a t => simp [List.dropWhile, h a (List.mem_cons_self _ _)]

/-- dropWhile over a block ending in a failing element keeps that element. -/
theorem dropWhile_append_stop {α : Type} (p : α → Bool) (xs : List α) (y : α) (ys : List α)
    (hxs : ∀ x ∈ xs, p x = true) (hy : p y = false) :
    (xs ++ y :: ys).dropWhile p = y :: ys := by
  induction xs with
  | nil => simp [List.dropWhile, hy]
  | cons a t ih =>
    have ha := hxs a (List.mem_cons_self _ _)
    simp [List.dropWhile, ha]
    exact ih fun x hx => hxs x (List.mem_cons_of_mem _ hx)

/-- dropWhile keeps the last element when it fails the predicate. -/
theorem dropWhile_keeps_last {α : Type} (p : α → Bool) (a : α) (ha : p a = false) :
    ∀ xs : List α, ∃ ys, (xs ++ [a]).dropWhile p = ys ++ [a] := by
  intro xs
  induction xs with
  | nil => exact ⟨[], by simp [List.dropWhile, ha]⟩
  | cons x t ih =>
    by_cases hx : p x = true
    · obtain ⟨ys, hys⟩ := ih
      exact ⟨ys, by simp [List.dropWhile, hx, hys]⟩
    · rw [Bool.not_eq_true] at hx
      exact ⟨x :: t, by simp [List.dropWhile, hx]⟩

/-- membership survives pyStripBytes for non-whitespace bytes. -/
theorem mem_dropWhile_of_mem {α : Type} (p : α → Bool) (b : α) (hb : p b = false) :
    ∀ l : List α, b ∈ l → b ∈ l.dropWhile p := by
  intro l
  induction l with
  | nil => intro h; cases h
  | cons a t ih =>
    intro h
    by_cases hpa : p a = true
    · rcases List.mem_cons.mp h with rfl | hmem
      · rw [hpa] at hb; cases hb
      · simpa [List.dropWhile, hpa] using ih hmem
    · rw [Bool.not_eq_true] at hpa
      simpa [List.dropWhile, hpa] using h

/-- a non-whitespace byte of l is still in pyStripBytes l. -/
theorem mem_pyStripBytes (b : Nat) (l : List Nat) (hb : wsB b = false) (hmem : b ∈ l) :
    b ∈ pyStripBytes l := by
  unfold pyStripBytes
  rw [List.mem_reverse]
  apply mem_dropWhile_of_mem _ _ hb
  rw [List.mem_reverse]
  exact mem_dropWhile_of_mem _ _ hb _ hmem

/-- toNat of Char.ofNat on the ASCII range. -/
theorem toNat_ofNat_lt (b : Nat) (h : b < 128) : (Char.ofNat b).toNat = b := by
  have hv : Nat.isValidChar b := Or.inl (by omega)
  simp [Char.ofNat, hv, Char.toNat, Char.ofNatAux]
  rfl

/-- Char.ofNat of an ASCII code differs from any character with a different
code. -/
theorem charOfNat_ne (b : Nat) (c : Char) (h : b < 128) (hn : b ≠ c.toNat) :
    Char.ofNat b ≠ c := by
  intro he
  apply hn
  rw [← he, toNat_ofNat_lt b h]

/-- a found occurrence fits inside the list. -/
theorem findFirstIdx_some_le (sep : List Nat) (hs : sep ≠ []) :
    ∀ l i, findFirstIdx sep l = some i → i + sep.length ≤ l.length := by
  intro l
  induction l with
  | nil =>
    intro i h
    cases sep with
    | nil => exact absurd rfl hs
    | cons a t => simp [findFirstIdx, List.isPrefixOf] at h
  | cons a t ih =>
    intro i h
    rw [findFirstIdx] at h
    by_cases hp : sep.isPrefixOf (a :: t) = true
    · simp [hp] at h
      subst h
      simpa using isPrefixOf_length_le sep _ hp
    · simp [hp] at h
      obtain ⟨j, hj, hji⟩ := h
      have := ih j hj
      simp only [List.length_cons]
      omega

/-- an occurrence at the head. -/
theorem findFirstIdx_zero (sep l : List Nat) (h : sep.isPrefixOf l = true) :
    findFirstIdx sep l = some 0 := by
  unfold findFirstIdx
  rw [h]
  rfl

/-- the first occurrence sits exactly at the end of m when sep starts rest and
never matches earlier. -/
theorem findFirstIdx_append_at (sep : List Nat) (rest : List Nat)
    (hpre : sep.isPrefixOf rest = true) :
    ∀ m : List Nat, (∀ i, i < m.length → sep.isPrefixOf ((m ++ rest).drop i) = false) →
      findFirstIdx sep (m ++ rest) = some m.length := by
  intro m
  induction m with
  | nil =>
    intro _
    simpa using findFirstIdx_zero sep rest hpre
  | cons c m2 ih =>
    intro h
    have h0 : sep.isPrefixOf (c :: (m2 ++ rest)) = false := by
      simpa using h 0 (by simp)
    have hrec := ih fun i hi => by simpa using h (i + 1) (by simpa using hi)
    show findFirstIdx sep (c :: (m2 ++ rest)) = some (m2.length + 1)
    rw [findFirstIdx.eq_def]
    simp [h0, hrec]

/-- a list where sep matches at no position contains no occurrence. -/
theorem findFirstIdx_none_all (sep : List Nat)
    (l : List Nat) (h : ∀ i, sep.isPrefixOf (l.drop i) = false) :
    findFirstIdx sep l = none := by
  induction l with
  | nil =>
    unfold findFirstIdx
    rw [show sep.isPrefixOf [] = false from by simpa using h 0]
    rfl
  | cons a t ih =>
    unfold findFirstIdx
    rw [show sep.isPrefixOf (a :: t) = false from by simpa using h 0]
    simp only [Bool.false_eq_true, if_false]
    rw [ih fun i => by simpa using h (i + 1)]
    rfl

/-- the dash-dash-boundary delimiter never occurs in the closing sequence
dash dash CR LF. -/
theorem findFirstIdx_tail_close (B : List Nat) (hne : B ≠ [])
    (hB : ∀ b ∈ B, 31 < b ∧ b < 127) :
    findFirstIdx (45 :: 45 :: B) [45, 45, 13, 10] = none := by
  match B, hne with
  | b :: B2, _ =>
    have hb := (hB b (List.mem_cons_self _ _)).1
    simp [findFirstIdx, List.isPrefixOf]
    omega

/-- the dash-dash-boundary delimiter never occurs in the bare closing
dash dash. -/
theorem findFirstIdx_tail_close2 (B : List Nat) (hne : B ≠ []) :
    findFirstIdx (45 :: 45 :: B) [45, 45] = none := by
  match B, hne with
  | b :: B2, _ => simp [findFirstIdx, List.isPrefixOf]

/-- enough fuel makes the split worker independent of the exact fuel. -/
theorem splitOnSeqF_fuel (sep : List Nat) (hs : sep ≠ []) :
    ∀ f g l, l.length < f → l.length < g → splitOnSeqF f sep l = splitOnSeqF g sep l := by
  intro f
  induction f with
  | zero => intro g l h _; omega
  | succ f2 ih =>
    intro g l hf2 hg
    cases g with
    | zero => omega
    | succ g2 =>
      rcases hf : findFirstIdx sep l with _ | i
      · simp [splitOnSeqF, hf]
      · have hbound := findFirstIdx_some_le sep hs l i hf
        have hsep1 : 1 ≤ sep.length := by
          cases sep with
          | nil => exact absurd rfl hs
          | cons a t => simp
        have hlen : (l.drop (i + sep.length)).length < l.length := by
          simp only [List.length_drop]
          omega
        simp only [splitOnSeqF, hf]
        rw [ih g2 _ (by omega) (by omega)]

/-- unfolding rule of bytes.split at a found occurrence. -/
theorem splitOnSeq_cons (sep l : List Nat) (i : Nat) (hs : sep ≠ [])
    (h : findFirstIdx sep l = some i) :
    splitOnSeq sep l = l.take i :: splitOnSeq sep (l.drop (i + sep.length)) := by
  unfold splitOnSeq
  have hbound := findFirstIdx_some_le sep hs l i h
  have hsep1 : 1 ≤ sep.length := by
    cases sep with
    | nil => exact absurd rfl hs
    | cons a t => simp
  simp only [splitOnSeqF, h]
  congr 1
  show splitOnSeqF l.length sep (l.drop (i + sep.length))
      = splitOnSeqF ((l.drop (i + sep.length)).length + 1) sep (l.drop (i + sep.length))
  apply splitOnSeqF_fuel sep hs
  · simp only [List.length_drop]
    omega
  · omega

/-- unfolding rule of bytes.split with no occurrence. -/
theorem splitOnSeq_single (sep l : List Nat) (h : findFirstIdx sep l = none) :
    splitOnSeq sep l = [l] := by
  unfold splitOnSeq
  simp [splitOnSeqF, h]

/-- on pure ASCII input the ignore-decoder is the plain byte-to-char map. -/
theorem u8F_ascii (l : List Nat) : ∀ fuel, l.length ≤ fuel → (∀ b ∈ l, b ≤ 127) →
    u8F fuel l = l.map Char.ofNat := by
  induction l with
  | nil => intro fuel _ _; cases fuel <;> rfl
  | cons b t ih =>
    intro fuel hf h
    match fuel, hf with
    | fuel + 1, hf =>
      have hb : b ≤ 127 := h b (List.mem_cons_self _ _)
      have ht := ih fuel (by simpa using hf) fun x hx => h x (List.mem_cons_of_mem _ hx)
      simp [u8F, hb, ht]

/-- utf8DecodeIgnore on pure ASCII input. -/
theorem utf8DecodeIgnore_ascii (l : List Nat) (h : ∀ b ∈ l, b ≤ 127) :
    utf8DecodeIgnore l = l.map Char.ofNat :=
  u8F_ascii l l.length le_rfl h

/-- decoding the encoding of a character list gives it back. -/
theorem map_ofNat_encodeAscii (l : List Char) : (encodeAscii l).map Char.ofNat = l := by
  unfold encodeAscii
  rw [List.map_map]
  have : ∀ c ∈ l, (Char.ofNat ∘ Char.toNat) c = id c := fun c _ => Char.ofNat_toNat c
  rw [List.map_congr_left this, List.map_id]

/-- encoding the decoding of ASCII bytes gives them back. -/
theorem encodeAscii_map_ofNat (B : List Nat) (h : ∀ b ∈ B, b < 128) :
    encodeAscii (B.map Char.ofNat) = B := by
  unfold encodeAscii
  rw [List.map_map]
  have : ∀ b ∈ B, (Char.toNat ∘ Char.ofNat) b = id b := fun b hb => toNat_ofNat_lt b (h b hb)
  rw [List.map_congr_left this, List.map_id]

/-- a clash inside s defeats any prefix claim however s is extended. -/
theorem isPrefixOf_false_of_mismatch (pat : List Char) :
    ∀ s rest : List Char, mismatchWithin pat s = true →
      List.isPrefixOf pat (s ++ rest) = false := by
  induction pat with
  | nil => intro s rest h; simp [mismatchWithin] at h
  | cons p pt ih =>
    intro s rest h
    cases s with
    | nil => simp [mismatchWithin] at h
    | cons a t =>
      simp only [mismatchWithin, Bool.or_eq_true, bne_iff_ne, ne_eq] at h
      rcases h with h | h
      · simp [List.isPrefixOf, List.cons_append, h]
      · simp [List.isPrefixOf, List.cons_append, ih t rest h]

/-- the scan skips a block on which every suffix clashes with the pattern. -/
theorem searchCapture_skip (pat : List Char) (stop : Char) (nc : Bool) :
    ∀ xs : List Char, scanFailAll pat xs = true → ∀ rest,
      searchCapture pat stop nc (xs ++ rest) = searchCapture pat stop nc rest := by
  intro xs
  induction xs with
  | nil => intro _ rest; rfl
  | cons c t ih =>
    intro h rest
    simp only [scanFailAll, Bool.and_eq_true] at h
    have hm : matchCapAt pat stop nc (c :: (t ++ rest)) = none := by
      unfold matchCapAt
      rw [show (c : Char) :: (t ++ rest) = (c :: t) ++ rest from rfl,
        isPrefixOf_false_of_mismatch pat (c :: t) rest h.1]
      rfl
    show searchCapture pat stop nc (c :: (t ++ rest)) = searchCapture pat stop nc rest
    rw [searchCapture, hm]
    exact ih h.2 rest

/-- the scan returns the first successful match. -/
theorem searchCapture_eq_of_match (pat : List Char) (stop : Char) (nc : Bool)
    (s : List Char) (cap : List Char) (hs : s ≠ [])
    (h : matchCapAt pat stop nc s = some cap) :
    searchCapture pat stop nc s = some cap := by
  cases s with
  | nil => exact absurd rfl hs
  | cons c t =>
    rw [searchCapture, h]

/-- a full match of the closing-quote pattern with a clean capture source. -/
theorem matchCapAt_exact (pat : List Char) (stop : Char) (capSrc tail2 : List Char)
    (hcap : ∀ c ∈ capSrc, c ≠ stop) (hne : capSrc ≠ []) :
    matchCapAt pat stop true (pat ++ (capSrc ++ stop :: tail2)) = some capSrc := by
  unfold matchCapAt
  rw [isPrefixOf_append_self_beq]
  simp only [if_true, List.drop_left]
  rw [takeWhile_append_stop _ capSrc stop tail2
    (fun x hx => by simpa using hcap x hx) (by simp)]
  have hie : capSrc.isEmpty = false := by
    cases capSrc with
    | nil => exact absurd rfl hne
    | cons a t => rfl
  simp only [hie, Bool.false_eq_true, if_false, if_true]
  rw [List.drop_left]
  simp

/-- a full match of the no-close pattern whose capture source runs to the end
of the text. -/
theorem matchCapAt_noclose (pat : List Char) (stop : Char) (src : List Char)
    (hcap : ∀ c ∈ src, c ≠ stop) (hne : src ≠ []) :
    matchCapAt pat stop false (pat ++ src) = some src := by
  unfold matchCapAt
  rw [isPrefixOf_append_self_beq]
  simp only [if_true, List.drop_left]
  rw [takeWhile_all _ src (fun x hx => by simpa using hcap x hx)]
  have hie : src.isEmpty = false := by
    cases src with
    | nil => exact absurd rfl hne
    | cons a t => rfl
  simp [hie]

/-- a prefix that contains the quote can only be the whole quote-terminated
text. -/
theorem prefix_quote_whole (pat : List Char) (hq : '"' ∈ pat) :
    ∀ l : List Char, (∀ c ∈ l, c ≠ '"') →
      List.isPrefixOf pat (l ++ ['"']) = true → pat = l ++ ['"'] := by
  induction pat with
  | nil => intro l _ _; cases hq
  | cons p pt ih =>
    intro l hl hp
    cases l with
    | nil =>
      cases pt with
      | nil =>
        simp only [List.isPrefixOf, List.nil_append, Bool.and_eq_true, beq_iff_eq] at hp
        simp [hp.1]
      | cons q qt =>
        simp [List.isPrefixOf] at hp
    | cons a t =>
      simp only [List.cons_append, List.isPrefixOf, Bool.and_eq_true, beq_iff_eq] at hp
      have hpa : p = a := hp.1
      have hq2 : '"' ∈ pt := by
        rcases List.mem_cons.mp hq with heq | hmem
        · exfalso
          exact hl a (List.mem_cons_self _ _) (by rw [← hpa, ← heq])
        · exact hmem
      have := ih hq2 t (fun c hc => hl c (List.mem_cons_of_mem _ hc)) hp.2
      simp [hpa, this]

/-- the quote-closed pattern cannot match its own text and close again. -/
theorem matchCapAt_self_quote (l : List Char) :
    matchCapAt (l ++ ['"']) '"' true (l ++ ['"']) = none := by
  unfold matchCapAt
  have h1 : List.isPrefixOf (l ++ ['"']) (l ++ ['"']) = true := by
    simpa using isPrefixOf_append_self_beq (l ++ ['"']) []
  rw [h1]
  simp [List.drop_length, List.takeWhile]

/-- the scan for a quote-closed pattern finds nothing in quote-free text
followed by a lone closing quote. -/
theorem searchCapture_none_quote (pat : List Char) (hq : '"' ∈ pat) :
    ∀ s : List Char, (∀ c ∈ s, c ≠ '"') →
      searchCapture pat '"' true (s ++ ['"']) = none := by
  intro s
  induction s with
  | nil =>
    intro _
    show searchCapture pat '"' true ('"' :: []) = none
    rw [searchCapture]
    have hm : matchCapAt pat '"' true ['"'] = none := by
      by_cases hp : List.isPrefixOf pat ['"'] = true
      · have hwhole := prefix_quote_whole pat hq [] (by intro c hc; cases hc)
          (by simpa using hp)
        rw [show pat = [] ++ ['"'] from hwhole]
        exact matchCapAt_self_quote []
      · unfold matchCapAt
        rw [Bool.not_eq_true] at hp
        rw [hp]
        rfl
    rw [hm]
    rfl
  | cons a t ih =>
    intro hl
    have ht : ∀ c ∈ t, c ≠ '"' := fun c hc => hl c (List.mem_cons_of_mem _ hc)
    have hm : matchCapAt pat '"' true ((a :: t) ++ ['"']) = none := by
      by_cases hp : List.isPrefixOf pat ((a :: t) ++ ['"']) = true
      · have hwhole := prefix_quote_whole pat hq (a :: t) hl hp
        rw [hwhole]
        exact matchCapAt_self_quote (a :: t)
      · unfold matchCapAt
        rw [Bool.not_eq_true] at hp
        rw [hp]
        rfl
    show searchCapture pat '"' true (a :: (t ++ ['"'])) = none
    rw [searchCapture]
    rw [show (a : Char) :: (t ++ ['"']) = (a :: t) ++ ['"'] from rfl, hm]
    exact ih ht

/-- splitting a CR LF header-paragraph on LF isolates the CR line and the
header line. -/
theorem splitLines_header (xs : List Char) (h : ∀ x ∈ xs, x ≠ '\n') :
    splitLines '\n' ('\r' :: '\n' :: xs) = [['\r'], xs] := by
  have hxs : splitLines '\n' xs = [xs] := by
    induction xs with
    | nil => rfl
    | cons a t ih =>
      have ha : a ≠ '\n' := h a (List.mem_cons_self _ _)
      have := ih fun x hx => h x (List.mem_cons_of_mem _ hx)
      simp [splitLines, ha, this]
  simp [splitLines, hxs]

/-- str.strip drops a leading whitespace character. -/
theorem pyStripChars_ws_cons (c : Char) (hc : wsC c = true) (xs : List Char) :
    pyStripChars (c :: xs) = pyStripChars xs := by
  unfold pyStripChars
  rw [List.dropWhile_cons_of_pos hc]

/-- str.strip is the identity on text that starts and ends with
non-whitespace characters. -/
theorem pyStripChars_id (c : Char) (xs : List Char) (d : Char)
    (hc : wsC c = false) (hd : wsC d = false) :
    pyStripChars (c :: (xs ++ [d])) = c :: (xs ++ [d]) := by
  unfold pyStripChars
  rw [List.dropWhile_cons_of_neg (by simp [hc])]
  have hrev : (c :: (xs ++ [d])).reverse = d :: (xs.reverse ++ [c]) := by
    simp
  rw [hrev, List.dropWhile_cons_of_neg (by simp [hd]), ← hrev, List.reverse_reverse]

/-- bytes.strip drops a leading whitespace byte. -/
theorem pyStripBytes_ws_cons (b : Nat) (hb : wsB b = true) (xs : List Nat) :
    pyStripBytes (b :: xs) = pyStripBytes xs := by
  unfold pyStripBytes
  rw [List.dropWhile_cons_of_pos hb]

/-- rstrip of the trailing CR LF pair recovers a payload whose own last byte
is neither CR nor LF. -/
theorem rstripCRLF_payload (P : List Nat) (h13 : P.getLast? ≠ some 13)
    (h10 : P.getLast? ≠ some 10) : rstripCRLF (P ++ [13, 10]) = P := by
  unfold rstripCRLF
  rcases hP : P.reverse with _ | ⟨c, t⟩
  · have : P = [] := by simpa using congrArg List.reverse hP
    subst this
    rfl
  · have hPval : P = (c :: t).reverse := by
      have := congrArg List.reverse hP
      simpa using this
    have hlast : P.getLast? = some c := by
      rw [hPval]
      simp [List.getLast?_concat]
    have hc13 : c ≠ 13 := fun he => h13 (by rw [hlast, he])
    have hc10 : c ≠ 10 := fun he => h10 (by rw [hlast, he])
    have hrev : (P ++ [13, 10]).reverse = 10 :: 13 :: (c :: t) := by
      rw [List.reverse_append, hP]
      rfl
    rw [hrev]
    rw [List.dropWhile_cons_of_pos (by norm_num), List.dropWhile_cons_of_pos (by norm_num),
      List.dropWhile_cons_of_neg (by simp [hc13, hc10])]
    rw [hPval]

/-- the closing marker check: a payload plus CR LF ends with the four-byte
marker exactly when the payload ends with dash dash. -/
theorem isSuffixOf_close4 (P : List Nat) :
    List.isSuffixOf [45, 45, 13, 10] (P ++ [13, 10]) = List.isSuffixOf [45, 45] P := by
  unfold List.isSuffixOf
  rw [List.reverse_append]
  rfl

/-- a payload plus CR LF never ends with bare dash dash. -/
theorem isSuffixOf_close2 (P : List Nat) :
    List.isSuffixOf [45, 45] (P ++ [13, 10]) = false := by
  unfold List.isSuffixOf
  rw [List.reverse_append]
  rfl

/-- position of the blank line inside the canonical part: right after the
header block, which contains no CR or LF bytes. -/
theorem findFirstIdx_crlf2 (hdr : List Nat) (tail2 : List Nat)
    (hhdr : ∀ b ∈ hdr, 31 < b ∧ b < 127) (hne : hdr ≠ []) :
    findFirstIdx [13, 10, 13, 10] (13 :: 10 :: (hdr ++ (13 :: 10 :: 13 :: 10 :: tail2)))
      = some (hdr.length + 2) := by
  have hmain := findFirstIdx_append_at [13, 10, 13, 10] (13 :: 10 :: 13 :: 10 :: tail2)
    (by simpa using isPrefixOf_append_self_beq [13, 10, 13, 10] tail2)
    (13 :: 10 :: hdr) ?hside
  case hside =>
    intro i hi
    simp only [List.length_cons] at hi
    match i with
    | 0 =>
      match hdr, hne with
      | b :: hdr2, _ =>
        have hb := (hhdr b (List.mem_cons_self _ _)).1
        show List.isPrefixOf [13, 10, 13, 10] (13 :: 10 :: (b :: hdr2 ++ _)) = false
        simp [List.isPrefixOf]
        omega
    | 1 =>
      show List.isPrefixOf [13, 10, 13, 10] (10 :: (hdr ++ _)) = false
      simp [List.isPrefixOf]
    | (k + 2) =>
      have hk : k < hdr.length := by omega
      have hdropk : ((13 :: 10 :: hdr) ++ (13 :: 10 :: 13 :: 10 :: tail2)).drop (k + 2)
          = hdr.drop k ++ (13 :: 10 :: 13 :: 10 :: tail2) := by
        rw [show ((13 : Nat) :: 10 :: hdr) ++ (13 :: 10 :: 13 :: 10 :: tail2)
            = 13 :: 10 :: (hdr ++ (13 :: 10 :: 13 :: 10 :: tail2)) from rfl]
        simp only [List.drop_succ_cons]
        exact List.drop_append_of_le_length (by omega)
      rw [hdropk]
      rcases hd : hdr.drop k with _ | ⟨b, rest2⟩
      · have : hdr.length ≤ k := by
          have := congrArg List.length hd
          simp only [List.length_drop, List.length_nil] at this
          omega
        omega
      · have hb : b ∈ hdr := (List.drop_subset k hdr) (hd ▸ List.mem_cons_self b rest2)
        have := (hhdr b hb).1
        simp [List.isPrefixOf]
        omega
  · have hshape : (13 : Nat) :: 10 :: (hdr ++ (13 :: 10 :: 13 :: 10 :: tail2))
        = (13 :: 10 :: hdr) ++ (13 :: 10 :: 13 :: 10 :: tail2) := rfl
    rw [hshape, hmain]
    simp only [List.length_cons]

/-- splitHeaderBody on the canonical part shape: header block and body are
separated at the CR LF CR LF blank line. -/
theorem splitHeaderBody_mid (hdr : List Nat) (tail2 : List Nat)
    (hhdr : ∀ b ∈ hdr, 31 < b ∧ b < 127) (hne : hdr ≠ []) :
    splitHeaderBody (13 :: 10 :: (hdr ++ (13 :: 10 :: 13 :: 10 :: tail2)))
      = some (13 :: 10 :: hdr, tail2) := by
  unfold splitHeaderBody
  rw [findFirstIdx_crlf2 hdr tail2 hhdr hne]
  have hshape : (13 : Nat) :: 10 :: (hdr ++ (13 :: 10 :: 13 :: 10 :: tail2))
      = (13 :: 10 :: hdr) ++ (13 :: 10 :: 13 :: 10 :: tail2) := rfl
  have hlen : hdr.length + 2 = (13 :: 10 :: hdr).length := by
    simp only [List.length_cons]
  have htake : ((13 :: 10 :: hdr) ++ (13 :: 10 :: 13 :: 10 :: tail2)).take (hdr.length + 2)
      = 13 :: 10 :: hdr := by
    rw [hlen]
    exact List.take_left _ _
  have hdrop : ((13 :: 10 :: hdr) ++ (13 :: 10 :: 13 :: 10 :: tail2)).drop (hdr.length + 2 + 4)
      = tail2 := by
    rw [hlen]
    rw [List.drop_append 4]
    rfl
  show some (((13 :: 10 :: hdr) ++ (13 :: 10 :: 13 :: 10 :: tail2)).take (hdr.length + 2),
      ((13 :: 10 :: hdr) ++ (13 :: 10 :: 13 :: 10 :: tail2)).drop (hdr.length + 2 + 4))
    = some (13 :: 10 :: hdr, tail2)
  rw [htake, hdrop]

/-- containment in the left part survives appending. -/
theorem contains_append_left (l1 l2 : List Char) (a : Char) (h : l1.contains a = true) :
    (l1 ++ l2).contains a = true := by
  simp [List.contains] at h ⊢
  exact Or.inl h

/-- all bytes of the canonical file-part header block are printable ASCII. -/
theorem hdrBytesFile_range (fnB : List Nat) (hfn : ∀ b ∈ fnB, 31 < b ∧ b < 127) :
    ∀ b ∈ hdrBytesFile fnB, 31 < b ∧ b < 127 := by
  have hcd : ∀ b ∈ encodeAscii
      (cs "Content-Disposition: form-data; name=\"file\"; filename=\""),
      31 < b ∧ b < 127 := by decide
  intro b hb
  unfold hdrBytesFile at hb
  rcases List.mem_append.mp hb with hb | hb
  · exact hcd b hb
  · rcases List.mem_append.mp hb with hb | hb
    · exact hfn b hb
    · have hb34 : b = 34 := by simpa using hb
      omega

/-- all bytes of the canonical scalar-part header block are printable
ASCII. -/
theorem hdrBytesScalar_range (nameB : List Nat) (hn : ∀ b ∈ nameB, 31 < b ∧ b < 127) :
    ∀ b ∈ hdrBytesScalar nameB, 31 < b ∧ b < 127 := by
  have hcd : ∀ b ∈ encodeAscii (cs "Content-Disposition: form-data; name=\""),
      31 < b ∧ b < 127 := by decide
  intro b hb
  unfold hdrBytesScalar at hb
  rcases List.mem_append.mp hb with hb | hb
  · exact hcd b hb
  · rcases List.mem_append.mp hb with hb | hb
    · exact hn b hb
    · have hb34 : b = 34 := by simpa using hb
      omega

/-- parseHeaders of the decoded canonical header paragraph: one entry for
content-disposition, holding the stripped value. -/
theorem parseHeaders_contentdisp (core2 : List Char) (hnl : ∀ x ∈ core2, x ≠ '\n') :
    parseHeaders ('\r' :: '\n' :: (cs "Content-Disposition: f" ++ (core2 ++ ['"'])))
      = [(cs "content-disposition", 'f' :: (core2 ++ ['"']))] := by
  unfold parseHeaders
  have hcd2 : ∀ x ∈ cs "Content-Disposition: f", x ≠ '\n' := by decide
  have hline : ∀ x ∈ cs "Content-Disposition: f" ++ (core2 ++ ['"']), x ≠ '\n' := by
    intro x hx
    rcases List.mem_append.mp hx with hx | hx
    · exact hcd2 x hx
    · rcases List.mem_append.mp hx with hx | hx
      · exact hnl x hx
      · have hxq : x = '"' := by simpa using hx
        simp [hxq]
  rw [splitLines_header _ hline]
  have hsh : cs "Content-Disposition: f" ++ (core2 ++ ['"'])
      = cs "Content-Disposition" ++ ':' :: (' ' :: ('f' :: (core2 ++ ['"']))) := rfl
  simp only [List.foldl]
  rw [show (List.contains ['\r'] ':') = false from rfl]
  simp only [Bool.false_eq_true, if_false]
  have hcontains : (cs "Content-Disposition: f" ++ (core2 ++ ['"'])).contains ':' = true :=
    contains_append_left _ _ _ (by decide)
  rw [hcontains]
  simp only [if_true]
  rw [hsh]
  rw [takeWhile_append_stop _ (cs "Content-Disposition") ':'
    (' ' :: ('f' :: (core2 ++ ['"']))) (by decide) (by decide)]
  rw [dropWhile_append_stop _ (cs "Content-Disposition") ':'
    (' ' :: ('f' :: (core2 ++ ['"']))) (by decide) (by decide)]
  rw [show (':' :: (' ' :: ('f' :: (core2 ++ ['"'])))).tail
      = ' ' :: ('f' :: (core2 ++ ['"'])) from rfl]
  rw [pyStripChars_ws_cons ' ' (by decide)]
  rw [show ('f' :: (core2 ++ ['"'])) = 'f' :: (core2 ++ ['"']) from rfl,
    pyStripChars_id 'f' core2 '"' (by decide) (by decide)]
  rw [show pyStripChars (cs "Content-Disposition") = cs "Content-Disposition" from by decide]
  rw [show toLowerL (cs "Content-Disposition") = cs "content-disposition" from by decide]
  rfl

/-- characters decoded from bytes below 127 avoid any character with a
different code. -/
theorem map_ofNat_ne_char (B : List Nat) (c : Char) (hB : ∀ b ∈ B, b < 127)
    (hc : ∀ b ∈ B, b ≠ c.toNat) : ∀ x ∈ B.map Char.ofNat, x ≠ c := by
  intro x hx
  obtain ⟨b, hb, rfl⟩ := List.mem_map.mp hx
  exact charOfNat_ne b c (by have := hB b hb; omega) (hc b hb)

/-- strip of surrounding quotes is the identity on quote-free text. -/
theorem stripQuotes_id (l : List Char) (h : ∀ c ∈ l, c ≠ '"') : stripQuotes l = l := by
  unfold stripQuotes
  rw [dropWhile_all _ l (fun x hx => by simp [h x hx])]
  rw [dropWhile_all _ l.reverse (fun x hx => by simp [h x (List.mem_reverse.mp hx)])]
  exact List.reverse_reverse l

/-- the boundary regex recovers exactly the declared boundary token from the
canonical content type, the quote strip leaves it unchanged, and encoding it
gives back the boundary bytes. -/
theorem boundary_parse (B : List Nat) (hBne : B ≠ [])
    (hB : ∀ b ∈ B, 32 < b ∧ b < 127 ∧ b ≠ 59 ∧ b ≠ 34) :
    boundarySearch (ctFor B) = some (B.map Char.ofNat)
    ∧ stripQuotes (B.map Char.ofNat) = B.map Char.ofNat
    ∧ encodeAscii (B.map Char.ofNat) = B := by
  have hlt : ∀ b ∈ B, b < 127 := fun b hb => (hB b hb).2.1
  have hne2 : B.map Char.ofNat ≠ [] := by
    intro h
    exact hBne (List.map_eq_nil_iff.mp h)
  have hnsemi : ∀ x ∈ B.map Char.ofNat, x ≠ ';' :=
    map_ofNat_ne_char B ';' hlt (fun b hb => by
      rw [show (';' : Char).toNat = 59 from rfl]
      exact (hB b hb).2.2.1)
  have hnq : ∀ x ∈ B.map Char.ofNat, x ≠ '"' :=
    map_ofNat_ne_char B '"' hlt (fun b hb => by
      rw [show ('"' : Char).toNat = 34 from rfl]
      exact (hB b hb).2.2.2)
  refine ⟨?_, stripQuotes_id _ hnq,
    encodeAscii_map_ofNat B (fun b hb => by have := hlt b hb; omega)⟩
  unfold boundarySearch
  rw [show ctFor B = cs "multipart/form-data; " ++ (cs "boundary=" ++ B.map Char.ofNat)
    from rfl]
  rw [searchCapture_skip _ _ _ (cs "multipart/form-data; ") (by decide)]
  apply searchCapture_eq_of_match _ _ _ _ _ (by simp [cs])
  exact matchCapAt_noclose _ _ _ hnsemi hne2

/-- splitting the canonical single-part body on the dash-dash-boundary
delimiter yields the empty prefix, the part, and the closing chunk. -/
theorem splitOnSeq_encoded (B mid tl : List Nat)
    (hsep : ∀ i, i < mid.length →
      List.isPrefixOf (45 :: 45 :: B) ((mid ++ ((45 :: 45 :: B) ++ tl)).drop i) = false)
    (htl : findFirstIdx (45 :: 45 :: B) tl = none) :
    splitOnSeq (45 :: 45 :: B) ((45 :: 45 :: B) ++ (mid ++ ((45 :: 45 :: B) ++ tl)))
      = [[], mid, tl] := by
  have hsep_ne : (45 :: 45 :: B) ≠ [] := by simp
  have h0 : findFirstIdx (45 :: 45 :: B)
      ((45 :: 45 :: B) ++ (mid ++ ((45 :: 45 :: B) ++ tl))) = some 0 :=
    findFirstIdx_zero _ _ (isPrefixOf_append_self_beq _ _)
  rw [splitOnSeq_cons _ _ 0 hsep_ne h0]
  simp only [List.take_zero, Nat.zero_add]
  rw [List.drop_left]
  have h1 : findFirstIdx (45 :: 45 :: B) (mid ++ ((45 :: 45 :: B) ++ tl))
      = some mid.length :=
    findFirstIdx_append_at _ _ (isPrefixOf_append_self_beq _ _) mid hsep
  rw [splitOnSeq_cons _ _ mid.length hsep_ne h1]
  rw [List.take_left]
  have hdrop2 : (mid ++ ((45 :: 45 :: B) ++ tl)).drop (mid.length + (45 :: 45 :: B).length)
      = tl := by
    rw [List.drop_append ((45 :: 45 :: B).length)]
    exact List.drop_left _ _
  rw [hdrop2, splitOnSeq_single _ _ htl]

/-- the scan for the name capture inside the canonical file-part disposition
value completes within the fixed text, whatever the filename. -/
theorem nameSearch_file_value (X : List Char) :
    searchCapture (cs "name=\"") '"' true (cs "form-data; name=\"file\"; filename=\"" ++ X)
      = some (cs "file") := rfl

/-- processing the canonical file part adds exactly the expected file field:
original filename, no scalar value, and the raw payload bytes. -/
theorem processPart_file (fields : List (List Char × FieldItem)) (fnB P : List Nat)
    (hfn : ∀ b ∈ fnB, 31 < b ∧ b < 127 ∧ b ≠ 34) (hfne : fnB ≠ [])
    (h13 : P.getLast? ≠ some 13) (h10 : P.getLast? ≠ some 10)
    (hdash : List.isSuffixOf [45, 45] P = false) :
    processPart fields (midFile fnB P)
      = upsertA (cs "file") ⟨some (fnB.map Char.ofNat), none, some P⟩ fields := by
  have hfnr : ∀ b ∈ fnB, 31 < b ∧ b < 127 := fun b hb => ⟨(hfn b hb).1, (hfn b hb).2.1⟩
  have hhdr := hdrBytesFile_range fnB hfnr
  have hhdr_ne : hdrBytesFile fnB ≠ [] := by
    unfold hdrBytesFile
    simp [cs]
  have hfnq : ∀ x ∈ fnB.map Char.ofNat, x ≠ '"' :=
    map_ofNat_ne_char fnB '"' (fun b hb => (hfnr b hb).2) (fun b hb => by
      rw [show ('"' : Char).toNat = 34 from rfl]
      exact (hfn b hb).2.2)
  have hfne2 : fnB.map Char.ofNat ≠ [] := by
    intro h
    exact hfne (List.map_eq_nil_iff.mp h)
  have hmem67 : (67 : Nat) ∈ midFile fnB P := by
    unfold midFile
    refine List.mem_cons_of_mem _ (List.mem_cons_of_mem _ (List.mem_append_left _ ?_))
    unfold hdrBytesFile
    exact List.mem_append_left _ (by decide)
  have hstrip67 : (67 : Nat) ∈ pyStripBytes (midFile fnB P) :=
    mem_pyStripBytes 67 _ (by decide) hmem67
  have hcond : (pyStripBytes (midFile fnB P)).isEmpty = false := by
    rcases hs : pyStripBytes (midFile fnB P) with _ | ⟨x, t⟩
    · rw [hs] at hstrip67
      cases hstrip67
    · rfl
  have hcond2 : ¬ pyStripBytes (midFile fnB P) = [45, 45] := by
    intro he
    rw [he] at hstrip67
    simp at hstrip67
  have hsplit : splitHeaderBody (midFile fnB P)
      = some (13 :: 10 :: hdrBytesFile fnB, P ++ [13, 10]) := by
    show splitHeaderBody
        (13 :: 10 :: (hdrBytesFile fnB ++ (13 :: 10 :: 13 :: 10 :: (P ++ [13, 10]))))
      = some (13 :: 10 :: hdrBytesFile fnB, P ++ [13, 10])
    exact splitHeaderBody_mid _ _ hhdr hhdr_ne
  have hdecode : utf8DecodeIgnore (13 :: 10 :: hdrBytesFile fnB)
      = '\r' :: '\n' :: (cs "Content-Disposition: f"
        ++ ((cs "orm-data; name=\"file\"; filename=\"" ++ fnB.map Char.ofNat) ++ ['"'])) := by
    rw [utf8DecodeIgnore_ascii _ ?hle]
    case hle =>
      intro b hb
      rcases List.mem_cons.mp hb with rfl | hb
      · omega
      · rcases List.mem_cons.mp hb with rfl | hb
        · omega
        · have := hhdr b hb
          omega
    simp only [List.map_cons]
    unfold hdrBytesFile
    simp only [List.map_append]
    rw [map_ofNat_encodeAscii]
    rfl
  have hnlc : ∀ x ∈ cs "orm-data; name=\"file\"; filename=\"", x ≠ '\n' := by decide
  have hnl : ∀ x ∈ cs "orm-data; name=\"file\"; filename=\"" ++ fnB.map Char.ofNat,
      x ≠ '\n' := by
    intro x hx
    rcases List.mem_append.mp hx with hx | hx
    · exact hnlc x hx
    · exact map_ofNat_ne_char fnB '\n' (fun b hb => (hfnr b hb).2)
        (fun b hb => by
          rw [show ('\n' : Char).toNat = 10 from rfl]
          have := (hfnr b hb).1
          omega) x hx
  have hheaders := parseHeaders_contentdisp
    (cs "orm-data; name=\"file\"; filename=\"" ++ fnB.map Char.ofNat) hnl
  have hfname : searchCapture (cs "filename=\"") '"' true
      ('f' :: ((cs "orm-data; name=\"file\"; filename=\"" ++ fnB.map Char.ofNat) ++ ['"']))
      = some (fnB.map Char.ofNat) := by
    rw [show ('f' :: ((cs "orm-data; name=\"file\"; filename=\"" ++ fnB.map Char.ofNat)
          ++ ['"']))
        = cs "form-data; name=\"file\"; "
          ++ (cs "filename=\"" ++ (fnB.map Char.ofNat ++ ['"'])) from rfl]
    rw [searchCapture_skip _ _ _ _ (by decide)]
    apply searchCapture_eq_of_match _ _ _ _ _ (by simp [cs])
    exact matchCapAt_exact _ _ _ [] hfnq hfne2
  have hname : searchCapture (cs "name=\"") '"' true
      ('f' :: ((cs "orm-data; name=\"file\"; filename=\"" ++ fnB.map Char.ofNat) ++ ['"']))
      = some (cs "file") :=
    nameSearch_file_value (fnB.map Char.ofNat ++ ['"'])
  simp only [processPart]
  rw [hcond]
  simp only [Bool.false_or]
  rw [if_neg (by simpa using hcond2)]
  rw [hsplit]
  simp only []
  rw [hdecode, hheaders]
  rw [show lookupA [(cs "content-disposition",
      'f' :: ((cs "orm-data; name=\"file\"; filename=\"" ++ fnB.map Char.ofNat) ++ ['"']))]
      (cs "content-disposition")
    = some ('f' :: ((cs "orm-data; name=\"file\"; filename=\"" ++ fnB.map Char.ofNat)
      ++ ['"'])) from by rw [lookupA]; simp]
  simp only [Option.getD_some]
  rw [hname]
  rw [isSuffixOf_close4 P, hdash]
  simp only [Bool.false_eq_true, if_false]
  rw [isSuffixOf_close2 P]
  simp only [Bool.false_eq_true, if_false]
  rw [rstripCRLF_payload P h13 h10]
  rw [hfname]

/-- an empty segment is skipped. -/
theorem processPart_nil (fields : List (List Char × FieldItem)) :
    processPart fields [] = fields := rfl

/-- the closing dash-dash CR LF segment is skipped. -/
theorem processPart_close (fields : List (List Char × FieldItem)) :
    processPart fields [45, 45, 13, 10] = fields := rfl

/-- the closing bare dash-dash segment is skipped. -/
theorem processPart_close2 (fields : List (List Char × FieldItem)) :
    processPart fields [45, 45] = fields := rfl

/-- C1 (amended): for every canonical valid multipart body with exactly one
file field named file, a printable quote-free filename, and a payload that
neither ends in CR or LF nor in dash-dash (and that does not contain the
boundary delimiter, hypothesis hsep), the manual parser recovers the exact
filename and the exact byte-for-byte payload. -/
theorem C1_file_field_roundtrip (B fnB P : List Nat)
    (hBne : B ≠ []) (hB : ∀ b ∈ B, 32 < b ∧ b < 127 ∧ b ≠ 59 ∧ b ≠ 34)
    (hfn : ∀ b ∈ fnB, 31 < b ∧ b < 127 ∧ b ≠ 34) (hfne : fnB ≠ [])
    (h13 : P.getLast? ≠ some 13) (h10 : P.getLast? ≠ some 10)
    (hdash : List.isSuffixOf [45, 45] P = false)
    (hsep : ∀ i, i < (midFile fnB P).length →
        List.isPrefixOf (45 :: 45 :: B)
          ((midFile fnB P ++ ((45 :: 45 :: B) ++ [45, 45, 13, 10])).drop i) = false) :
    parse_multipart_form_data (multipartFileBody B fnB P) (ctFor B)
      = Except.ok ⟨[(cs "file", ⟨some (fnB.map Char.ofNat), none, some P⟩)]⟩ := by
  obtain ⟨hbs, hsq, henc⟩ := boundary_parse B hBne hB
  unfold parse_multipart_form_data
  rw [hbs]
  show Except.ok (FieldStorage.mk
      ((splitOnSeq (45 :: 45 :: encodeAscii (stripQuotes (B.map Char.ofNat)))
        (multipartFileBody B fnB P)).foldl processPart []))
    = Except.ok ⟨[(cs "file", ⟨some (fnB.map Char.ofNat), none, some P⟩)]⟩
  rw [hsq, henc]
  rw [show multipartFileBody B fnB P
      = (45 :: 45 :: B) ++ (midFile fnB P ++ ((45 :: 45 :: B) ++ [45, 45, 13, 10]))
    from rfl]
  rw [splitOnSeq_encoded B (midFile fnB P) [45, 45, 13, 10] hsep
    (findFirstIdx_tail_close B hBne
      (fun b hb => ⟨by have := (hB b hb).1; omega, (hB b hb).2.1⟩))]
  simp only [List.foldl]
  rw [processPart_nil, processPart_file [] fnB P hfn hfne h13 h10 hdash, processPart_close]
  rfl

/-- Counterexample to C1 as stated: payloads whose last bytes are LF, or
which end in dash-dash, are not recovered byte for byte — the parser strips
them (bodies use boundary XYZ and filename a.txt; payload hi-LF comes back
without the LF, payload ab-dash-dash comes back as ab). -/
theorem C1_counterexample_trailing_bytes :
    parse_multipart_form_data
        (multipartFileBody [88, 89, 90] [97, 46, 116, 120, 116] [104, 105, 10])
        (ctFor [88, 89, 90])
      = Except.ok ⟨[(cs "file", ⟨some (cs "a.txt"), none, some [104, 105]⟩)]⟩
    ∧ [104, 105] ≠ [104, 105, 10]
    ∧ parse_multipart_form_data
        (multipartFileBody [88, 89, 90] [97, 46, 116, 120, 116] [97, 98, 45, 45])
        (ctFor [88, 89, 90])
      = Except.ok ⟨[(cs "file", ⟨some (cs "a.txt"), none, some [97, 98]⟩)]⟩
    ∧ [97, 98] ≠ [97, 98, 45, 45] :=
  ⟨rfl, by decide, rfl, by decide⟩

/-- Witness for the amended C1 at a concrete binary payload containing a zero
byte and an invalid-UTF-8 byte: the payload comes back exactly. -/
theorem C1_file_field_roundtrip_witness :
    parse_multipart_form_data
        (multipartFileBody [88, 89, 90] [98, 46, 98, 105, 110] [0, 255, 1, 2])
        (ctFor [88, 89, 90])
      = Except.ok ⟨[(cs "file", ⟨some ([98, 46, 98, 105, 110].map Char.ofNat), none,
          some [0, 255, 1, 2]⟩)]⟩ :=
  C1_file_field_roundtrip [88, 89, 90] [98, 46, 98, 105, 110] [0, 255, 1, 2]
    (by decide) (by decide) (by decide) (by decide) (by decide) (by decide)
    (by decide) (by decide)

/-- processing the canonical scalar part adds exactly the expected scalar
field: no filename, and the body decoded with the ignore error handler. -/
theorem processPart_scalar (fields : List (List Char × FieldItem)) (nameB P : List Nat)
    (hn : ∀ b ∈ nameB, 31 < b ∧ b < 127 ∧ b ≠ 34) (hne : nameB ≠ [])
    (h13 : P.getLast? ≠ some 13) (h10 : P.getLast? ≠ some 10)
    (hdash : List.isSuffixOf [45, 45] P = false) :
    processPart fields (midScalar nameB P)
      = upsertA (nameB.map Char.ofNat) ⟨none, some (utf8DecodeIgnore P), none⟩ fields := by
  have hnr : ∀ b ∈ nameB, 31 < b ∧ b < 127 := fun b hb => ⟨(hn b hb).1, (hn b hb).2.1⟩
  have hhdr := hdrBytesScalar_range nameB hnr
  have hhdr_ne : hdrBytesScalar nameB ≠ [] := by
    unfold hdrBytesScalar
    simp [cs]
  have hnq : ∀ x ∈ nameB.map Char.ofNat, x ≠ '"' :=
    map_ofNat_ne_char nameB '"' (fun b hb => (hnr b hb).2) (fun b hb => by
      rw [show ('"' : Char).toNat = 34 from rfl]
      exact (hn b hb).2.2)
  have hne2 : nameB.map Char.ofNat ≠ [] := by
    intro h
    exact hne (List.map_eq_nil_iff.mp h)
  have hmem67 : (67 : Nat) ∈ midScalar nameB P := by
    unfold midScalar
    refine List.mem_cons_of_mem _ (List.mem_cons_of_mem _ (List.mem_append_left _ ?_))
    unfold hdrBytesScalar
    exact List.mem_append_left _ (by decide)
  have hstrip67 : (67 : Nat) ∈ pyStripBytes (midScalar nameB P) :=
    mem_pyStripBytes 67 _ (by decide) hmem67
  have hcond : (pyStripBytes (midScalar nameB P)).isEmpty = false := by
    rcases hs : pyStripBytes (midScalar nameB P) with _ | ⟨x, t⟩
    · rw [hs] at hstrip67
      cases hstrip67
    · rfl
  have hcond2 : ¬ pyStripBytes (midScalar nameB P) = [45, 45] := by
    intro he
    rw [he] at hstrip67
    simp at hstrip67
  have hsplit : splitHeaderBody (midScalar nameB P)
      = some (13 :: 10 :: hdrBytesScalar nameB, P ++ [13, 10]) := by
    show splitHeaderBody
        (13 :: 10 :: (hdrBytesScalar nameB ++ (13 :: 10 :: 13 :: 10 :: (P ++ [13, 10]))))
      = some (13 :: 10 :: hdrBytesScalar nameB, P ++ [13, 10])
    exact splitHeaderBody_mid _ _ hhdr hhdr_ne
  have hdecode : utf8DecodeIgnore (13 :: 10 :: hdrBytesScalar nameB)
      = '\r' :: '\n' :: (cs "Content-Disposition: f"
        ++ ((cs "orm-data; name=\"" ++ nameB.map Char.ofNat) ++ ['"'])) := by
    rw [utf8DecodeIgnore_ascii _ ?hle]
    case hle =>
      intro b hb
      rcases List.mem_cons.mp hb with rfl | hb
      · omega
      · rcases List.mem_cons.mp hb with rfl | hb
        · omega
        · have := hhdr b hb
          omega
    simp only [List.map_cons]
    unfold hdrBytesScalar
    simp only [List.map_append]
    rw [map_ofNat_encodeAscii]
    rfl
  have hnlc : ∀ x ∈ cs "orm-data; name=\"", x ≠ '\n' := by decide
  have hnl : ∀ x ∈ cs "orm-data; name=\"" ++ nameB.map Char.ofNat, x ≠ '\n' := by
    intro x hx
    rcases List.mem_append.mp hx with hx | hx
    · exact hnlc x hx
    · exact map_ofNat_ne_char nameB '\n' (fun b hb => (hnr b hb).2)
        (fun b hb => by
          rw [show ('\n' : Char).toNat = 10 from rfl]
          have := (hnr b hb).1
          omega) x hx
  have hheaders := parseHeaders_contentdisp
    (cs "orm-data; name=\"" ++ nameB.map Char.ofNat) hnl
  have hname : searchCapture (cs "name=\"") '"' true
      ('f' :: ((cs "orm-data; name=\"" ++ nameB.map Char.ofNat) ++ ['"']))
      = some (nameB.map Char.ofNat) := by
    rw [show ('f' :: ((cs "orm-data; name=\"" ++ nameB.map Char.ofNat) ++ ['"']))
        = cs "form-data; " ++ (cs "name=\"" ++ (nameB.map Char.ofNat ++ ['"'])) from rfl]
    rw [searchCapture_skip _ _ _ _ (by decide)]
    apply searchCapture_eq_of_match _ _ _ _ _ (by simp [cs])
    exact matchCapAt_exact _ _ _ [] hnq hne2
  have hfname : searchCapture (cs "filename=\"") '"' true
      ('f' :: ((cs "orm-data; name=\"" ++ nameB.map Char.ofNat) ++ ['"']))
      = none := by
    rw [show ('f' :: ((cs "orm-data; name=\"" ++ nameB.map Char.ofNat) ++ ['"']))
        = cs "form-data; name=\"" ++ (nameB.map Char.ofNat ++ ['"']) from rfl]
    rw [searchCapture_skip _ _ _ _ (by decide)]
    exact searchCapture_none_quote _ (by decide) _ hnq
  simp only [processPart]
  rw [hcond]
  simp only [Bool.false_or]
  rw [if_neg (by simpa using hcond2)]
  rw [hsplit]
  simp only []
  rw [hdecode, hheaders]
  rw [show lookupA [(cs "content-disposition",
      'f' :: ((cs "orm-data; name=\"" ++ nameB.map Char.ofNat) ++ ['"']))]
      (cs "content-disposition")
    = some ('f' :: ((cs "orm-data; name=\"" ++ nameB.map Char.ofNat) ++ ['"']))
    from by rw [lookupA]; simp]
  simp only [Option.getD_some]
  rw [hname]
  rw [isSuffixOf_close4 P, hdash]
  simp only [Bool.false_eq_true, if_false]
  rw [isSuffixOf_close2 P]
  simp only [Bool.false_eq_true, if_false]
  rw [rstripCRLF_payload P h13 h10]
  rw [hfname]

/-- C8 (amended): a canonical part without a filename attribute becomes a
scalar field whose value is the body decoded as UTF-8 with the ignore error
handler — malformed bytes are dropped without raising, not replaced with
replacement characters. -/
theorem C8_scalar_field_decode_ignore (B nameB P : List Nat)
    (hBne : B ≠ []) (hB : ∀ b ∈ B, 32 < b ∧ b < 127 ∧ b ≠ 59 ∧ b ≠ 34)
    (hn : ∀ b ∈ nameB, 31 < b ∧ b < 127 ∧ b ≠ 34) (hne : nameB ≠ [])
    (h13 : P.getLast? ≠ some 13) (h10 : P.getLast? ≠ some 10)
    (hdash : List.isSuffixOf [45, 45] P = false)
    (hsep : ∀ i, i < (midScalar nameB P).length →
        List.isPrefixOf (45 :: 45 :: B)
          ((midScalar nameB P ++ ((45 :: 45 :: B) ++ [45, 45, 13, 10])).drop i) = false) :
    parse_multipart_form_data (multipartScalarBody B nameB P) (ctFor B)
      = Except.ok ⟨[(nameB.map Char.ofNat, ⟨none, some (utf8DecodeIgnore P), none⟩)]⟩ := by
  obtain ⟨hbs, hsq, henc⟩ := boundary_parse B hBne hB
  unfold parse_multipart_form_data
  rw [hbs]
  show Except.ok (FieldStorage.mk
      ((splitOnSeq (45 :: 45 :: encodeAscii (stripQuotes (B.map Char.ofNat)))
        (multipartScalarBody B nameB P)).foldl processPart []))
    = Except.ok ⟨[(nameB.map Char.ofNat, ⟨none, some (utf8DecodeIgnore P), none⟩)]⟩
  rw [hsq, henc]
  rw [show multipartScalarBody B nameB P
      = (45 :: 45 :: B) ++ (midScalar nameB P ++ ((45 :: 45 :: B) ++ [45, 45, 13, 10]))
    from rfl]
  rw [splitOnSeq_encoded B (midScalar nameB P) [45, 45, 13, 10] hsep
    (findFirstIdx_tail_close B hBne
      (fun b hb => ⟨by have := (hB b hb).1; omega, (hB b hb).2.1⟩))]
  simp only [List.foldl]
  rw [processPart_nil, processPart_scalar [] nameB P hn hne h13 h10 hdash, processPart_close]
  rfl

/-- Counterexample to C8 as stated: the scalar body ab, invalid byte 255, c
decodes to abc — the invalid byte is dropped, no replacement character
U+FFFD marks its position (boundary XYZ, field name v). -/
theorem C8_counterexample_no_replacement :
    parse_multipart_form_data (multipartScalarBody [88, 89, 90] [118] [97, 98, 255, 99])
        (ctFor [88, 89, 90])
      = Except.ok ⟨[(cs "v", ⟨none, some (cs "abc"), none⟩)]⟩
    ∧ Char.ofNat 65533 ∉ cs "abc"
    ∧ (cs "abc").length ≠ ([97, 98, 255, 99] : List Nat).length :=
  ⟨rfl, by decide, by decide⟩

/-- Witness for the amended C8 at the same concrete input through the
theorem itself. -/
theorem C8_scalar_field_decode_ignore_witness :
    parse_multipart_form_data (multipartScalarBody [88, 89, 90] [118] [97, 98, 255, 99])
        (ctFor [88, 89, 90])
      = Except.ok ⟨[([118].map Char.ofNat,
          ⟨none, some (utf8DecodeIgnore [97, 98, 255, 99]), none⟩)]⟩ :=
  C8_scalar_field_decode_ignore [88, 89, 90] [118] [97, 98, 255, 99]
    (by decide) (by decide) (by decide) (by decide) (by decide) (by decide)
    (by decide) (by decide)

/-- C3 (amended): a content type without a boundary parameter always raises
the ValueError (the MalformedRequest of the spec) and no field set is
produced; but a segment that cannot be split into header and body sections
(no CRLF-CRLF and no LF-LF separator) is silently skipped: the parser
returns an empty field set, not an error. -/
theorem C3_no_boundary_error_unsplittable_skipped :
    (∀ post ct, boundarySearch ct = none →
      parse_multipart_form_data post ct
        = Except.error (cs "No boundary found in Content-Type"))
    ∧ (∀ B p, B ≠ [] → (∀ b ∈ B, 32 < b ∧ b < 127 ∧ b ≠ 59 ∧ b ≠ 34) →
        findFirstIdx [13, 10, 13, 10] p = none → findFirstIdx [10, 10] p = none →
        (∃ b, b ∈ p ∧ wsB b = false ∧ ¬ b = 45) →
        (∀ i, i < p.length →
          List.isPrefixOf (45 :: 45 :: B) ((p ++ ((45 :: 45 :: B) ++ [45, 45])).drop i)
            = false) →
        parse_multipart_form_data ((45 :: 45 :: B) ++ (p ++ ((45 :: 45 :: B) ++ [45, 45])))
          (ctFor B) = Except.ok ⟨[]⟩) := by
  constructor
  · intro post ct h
    unfold parse_multipart_form_data
    rw [h]
  · intro B p hBne hB hsplit4 hsplit2 hbyte hsep
    obtain ⟨hbs, hsq, henc⟩ := boundary_parse B hBne hB
    obtain ⟨b0, hb0mem, hb0ws, hb045⟩ := hbyte
    unfold parse_multipart_form_data
    rw [hbs]
    show Except.ok (FieldStorage.mk
        ((splitOnSeq (45 :: 45 :: encodeAscii (stripQuotes (B.map Char.ofNat)))
          ((45 :: 45 :: B) ++ (p ++ ((45 :: 45 :: B) ++ [45, 45])))).foldl processPart []))
      = Except.ok ⟨[]⟩
    rw [hsq, henc]
    rw [splitOnSeq_encoded B p [45, 45] hsep (findFirstIdx_tail_close2 B hBne)]
    simp only [List.foldl]
    rw [processPart_nil]
    have hskip : processPart [] p = [] := by
      have hmem : b0 ∈ pyStripBytes p := mem_pyStripBytes b0 p hb0ws hb0mem
      have hcond : (pyStripBytes p).isEmpty = false := by
        rcases hs : pyStripBytes p with _ | ⟨x, t⟩
        · rw [hs] at hmem
          cases hmem
        · rfl
      have hcond2 : ¬ pyStripBytes p = [45, 45] := by
        intro he
        rw [he] at hmem
        simp at hmem
        exact hb045 hmem
      simp only [processPart]
      rw [hcond]
      simp only [Bool.false_or]
      rw [if_neg (by simpa using hcond2)]
      unfold splitHeaderBody
      rw [hsplit4, hsplit2]
    rw [hskip, processPart_close2]

/-- Counterexample to C3 as stated: a segment with no blank-line separator
(body garbage between boundary XYZ delimiters) is silently skipped and the
parser returns an empty field set instead of raising MalformedRequest. -/
theorem C3_counterexample_unsplittable_not_error :
    parse_multipart_form_data
        ((45 :: 45 :: [88, 89, 90])
          ++ ([103, 97, 114, 98, 97, 103, 101] ++ ((45 :: 45 :: [88, 89, 90]) ++ [45, 45])))
        (ctFor [88, 89, 90])
      = Except.ok ⟨[]⟩ := rfl

/-- Witness for the amended C3 at concrete inputs through the theorem
itself: a plain content type raises the no-boundary error, and a concrete
unsplittable segment is skipped. -/
theorem C3_no_boundary_error_unsplittable_skipped_witness :
    parse_multipart_form_data [104, 105] (cs "text/plain")
      = Except.error (cs "No boundary found in Content-Type")
    ∧ parse_multipart_form_data
        ((45 :: 45 :: [81, 81]) ++ ([122, 122, 122] ++ ((45 :: 45 :: [81, 81]) ++ [45, 45])))
        (ctFor [81, 81]) = Except.ok ⟨[]⟩ :=
  ⟨C3_no_boundary_error_unsplittable_skipped.1 [104, 105] (cs "text/plain") (by decide),
   C3_no_boundary_error_unsplittable_skipped.2 [81, 81] [122, 122, 122]
     (by decide) (by decide) (by decide) (by decide)
     ⟨122, by decide, by decide, by decide⟩ (by decide)⟩
